import Mathlib

/-!
# Verification of `oauth2client/crypt.py` (signed-JWT creation and verification)

This file is a shallow embedding of the JWT signing/verification core in
`src/gcal-boilerplate/oauth2client/crypt.py` together with the behaviour of its
two serialization collaborators that the core's control flow depends on:

* the JSON codec (`anyjson.simplejson`, used via `_json_encode` /
  `simplejson.loads`), modelled by `Crypt.JValue.dumps` / `Crypt.loads`
  (compact separators `(',', ':')`, `ensure_ascii` escaping); and
* the base64 helpers (`base64.urlsafe_b64encode` / `base64.urlsafe_b64decode`,
  which bottom out in CPython 2's `binascii.a2b_base64`), modelled by
  `Crypt._urlsafe_b64encode` / `Crypt._urlsafe_b64decode`.  The decoder
  faithfully reproduces `binascii.a2b_base64`'s loop: characters outside the
  alphabet are silently skipped, a pad character `=` is skipped when fewer than
  two alphabet characters of the current quad have been seen, decoding stops at
  a pad otherwise, and `binascii.Error` ("Incorrect padding") is raised iff
  6-bit input remains buffered at the end.

Python-2 strings (byte strings) are modelled as `List Char` / `List Nat`
(bytes).  The wall clock `now = long(time.time())` of the source is modelled as
an explicit integer parameter `now`, per the spec's numeric-time interface.
The RSA capability provider (`Signer` / `Verifier`, spec section 4.1) is
abstracted as function parameters: `sign : List Nat → List Nat` and a
certificate-interpretation predicate `pemVerify : String → List Nat → List Nat
→ Bool` (given a PEM text, a message, and a signature, does the OpenSSL-backed
`Verifier.from_string(pem, True).verify(message, signature)` return `True`).

Exception behaviour is made explicit: `Crypt.VerifyError` has one constructor
per `raise AppIdentityError(...)` site of `verify_signed_jwt_with_certs`, plus
constructors for the exceptions that the source does NOT catch (binascii
errors, `UnicodeDecodeError`, `TypeError` from arithmetic on non-numeric
claims, `AttributeError` from `.get` on a non-dict payload).
-/

namespace Crypt

/-! ## JSON data model (the simplejson collaborator's value domain)

JSON numbers are modelled as integers only (floating-point literals are out of
scope for the claims under verification).  Objects are ordered key/value lists;
`simplejson.loads` materialises them into a Python dict where a later duplicate
key overrides an earlier one, which `JObj.get` reproduces. -/

mutual

inductive JValue : Type where
  | null : JValue
  | bool (b : Bool) : JValue
  | int (n : Int) : JValue
  | str (s : String) : JValue
  | arr (elems : JArr) : JValue
  | obj (members : JObj) : JValue

inductive JArr : Type where
  | nil : JArr
  | cons (hd : JValue) (tl : JArr) : JArr

inductive JObj : Type where
  | nil : JObj
  | cons (key : String) (val : JValue) (tl : JObj) : JObj

end

/-- Dict lookup as built by `simplejson`: pairs are inserted in textual order
into a Python dict, so a later binding of the same key wins. -/
def JObj.get : JObj → String → Option JValue
  | .nil, _ => none
  | .cons k v tl, key =>
    match JObj.get tl key with
    | some r => some r
    | none => if k = key then some v else none

/-- Python's `dict.get(key)` returns `None` both when the key is absent and
when the stored value is JSON `null` (Python `None`); the source's
`is None` tests therefore conflate the two.  This helper models the value the
`parsed.get('...') is None` tests effectively see. -/
def pyDictGet (kvs : JObj) (key : String) : Option JValue :=
  match kvs.get key with
  | some .null => none
  | r => r

/-! ## JSON serialization: `simplejson.dumps(data, separators=(',', ':'))`

Compact encoding, `ensure_ascii=True`: every character outside printable ASCII
(and the characters `"` and `\`) is escaped; astral characters become UTF-16
surrogate pairs `\uXXXX\uXXXX`. -/

/-- Lower-case hexadecimal digit, as produced by simplejson's
escape formatting of non-ASCII characters. -/
def hexDigitChar (n : Nat) : Char :=
  if n < 10 then Char.ofNat (48 + n) else Char.ofNat (87 + n)

/-- The four-digit hexadecimal rendering used by a JSON escape of
code point `n` (`n < 0x10000`). -/
def hex4 (n : Nat) : List Char :=
  [hexDigitChar (n / 4096), hexDigitChar (n / 256 % 16),
   hexDigitChar (n / 16 % 16), hexDigitChar (n % 16)]

/-- simplejson's per-character string escaping (`ensure_ascii=True`):
the named escapes of its `ESCAPE_DCT`, `\u00xx` for remaining control
characters, printable ASCII verbatim, `\uXXXX` for other BMP characters and
surrogate pairs for astral characters. -/
def escapeChar (c : Char) : List Char :=
  if c = '"' then ['\\', '"']
  else if c = '\\' then ['\\', '\\']
  else if c = Char.ofNat 8 then ['\\', 'b']
  else if c = Char.ofNat 9 then ['\\', 't']
  else if c = Char.ofNat 10 then ['\\', 'n']
  else if c = Char.ofNat 12 then ['\\', 'f']
  else if c = Char.ofNat 13 then ['\\', 'r']
  else if c.toNat < 32 then '\\' :: 'u' :: hex4 c.toNat
  else if c.toNat ≤ 126 then [c]
  else if c.toNat < 65536 then '\\' :: 'u' :: hex4 c.toNat
  else
    '\\' :: 'u' :: hex4 (55296 + (c.toNat - 65536) / 1024) ++
      ('\\' :: 'u' :: hex4 (56320 + (c.toNat - 65536) % 1024))

/-- Escape a whole string body (content between the enclosing quotes). -/
def escStr : List Char → List Char
  | [] => []
  | c :: rest => escapeChar c ++ escStr rest

/-- Decimal digits of a natural number, most significant first. -/
def natChars (n : Nat) : List Char :=
  if h : n < 10 then [Char.ofNat (48 + n)]
  else natChars (n / 10) ++ [Char.ofNat (48 + n % 10)]
  decreasing_by exact Nat.div_lt_self (by omega) (by omega)

/-- JSON rendering of an integer. -/
def intChars (n : Int) : List Char :=
  if n < 0 then '-' :: natChars n.natAbs else natChars n.toNat

mutual

/-- `simplejson.dumps(v, separators=(',', ':'))`: compact JSON text of a value
(as a Python-2 byte string; `ensure_ascii` keeps it pure ASCII). -/
def JValue.dumps : JValue → List Char
  | .null => ['n', 'u', 'l', 'l']
  | .bool b => if b then ['t', 'r', 'u', 'e'] else ['f', 'a', 'l', 's', 'e']
  | .int n => intChars n
  | .str s => '"' :: escStr s.data ++ ['"']
  | .arr elems => '[' :: JArr.dumps elems ++ [']']
  | .obj members => '{' :: JObj.dumps members ++ ['}']

/-- Array elements joined by the `,` item separator. -/
def JArr.dumps : JArr → List Char
  | .nil => []
  | .cons v .nil => v.dumps
  | .cons v (.cons w tl) => v.dumps ++ ',' :: JArr.dumps (.cons w tl)

/-- Object members `"key":value` joined by the `,` item separator. -/
def JObj.dumps : JObj → List Char
  | .nil => []
  | .cons k v .nil => '"' :: escStr k.data ++ '"' :: ':' :: v.dumps
  | .cons k v (.cons k2 w tl) =>
    '"' :: escStr k.data ++ '"' :: ':' :: v.dumps ++
      ',' :: JObj.dumps (.cons k2 w tl)

end

/-! ## JSON parsing: `simplejson.loads`

A recursive-descent parser for the grammar `simplejson` accepts (restricted to
integer numerals; float and exponent forms are outside the claims under
verification).  The scanner is fuelled; running out of fuel corresponds to the
Python recursion limit, a failure mode that the `try/except` around `loads` in
the source also maps to its "Can't parse token" error. -/

inductive ParseError : Type where
  | bad : ParseError
  | fuel : ParseError
  | extraData : ParseError
  | notAscii : ParseError
deriving DecidableEq

/-- JSON whitespace. -/
def isWsChar (c : Char) : Bool :=
  c = ' ' ∨ c = Char.ofNat 9 ∨ c = Char.ofNat 10 ∨ c = Char.ofNat 13

def skipWs : List Char → List Char
  | [] => []
  | c :: rest => if isWsChar c then skipWs rest else c :: rest

/-- Value of a hexadecimal digit character, if any. -/
def hexVal (c : Char) : Option Nat :=
  if '0' ≤ c ∧ c ≤ '9' then some (c.toNat - 48)
  else if 'a' ≤ c ∧ c ≤ 'f' then some (c.toNat - 87)
  else if 'A' ≤ c ∧ c ≤ 'F' then some (c.toNat - 55)
  else none

/-- Greedy decimal-digit scan: consumes leading digits, accumulating their
value onto `acc`, and returns the remainder. -/
def parseDigits (acc : Nat) : List Char → Nat × List Char
  | [] => (acc, [])
  | c :: rest =>
    if c.isDigit then parseDigits (acc * 10 + (c.toNat - 48)) rest
    else (acc, c :: rest)

/-- Prepend a decoded character to a string-body parse result. -/
def consStr (c : Char) :
    Except ParseError (List Char × List Char) →
      Except ParseError (List Char × List Char)
  | .ok (cs, r) => .ok (c :: cs, r)
  | .error err => .error err

/-- The named JSON escapes `\" \\ \/ \b \t \n \f \r`. -/
def escCharOf (e : Char) : Option Char :=
  if e = '"' then some '"'
  else if e = '\\' then some '\\'
  else if e = '/' then some '/'
  else if e = 'b' then some (Char.ofNat 8)
  else if e = 't' then some (Char.ofNat 9)
  else if e = 'n' then some (Char.ofNat 10)
  else if e = 'f' then some (Char.ofNat 12)
  else if e = 'r' then some (Char.ofNat 13)
  else none

/-- Combine four hex-digit values into the code unit of a `\uXXXX` escape. -/
def uCode : Option Nat → Option Nat → Option Nat → Option Nat → Option Nat
  | some a, some b, some c, some d => some (a * 4096 + b * 256 + c * 16 + d)
  | _, _, _, _ => none

mutual

/-- Body of a JSON string after the opening quote: returns the decoded
characters and the remainder after the closing quote.  Handles the named
escapes, `\uXXXX`, and UTF-16 surrogate pairs. -/
def parseStrBody : List Char → Except ParseError (List Char × List Char)
  | [] => .error .bad
  | c :: rest =>
    if c = '"' then .ok ([], rest)
    else if c = '\\' then parseEsc rest
    else consStr c (parseStrBody rest)

/-- An escape sequence, the leading backslash already consumed. -/
def parseEsc : List Char → Except ParseError (List Char × List Char)
  | [] => .error .bad
  | e :: rest2 =>
    if e = 'u' then parseU rest2
    else
      match escCharOf e with
      | none => .error .bad
      | some d => consStr d (parseStrBody rest2)

/-- A `\uXXXX` escape, `\u` already consumed.  A high-surrogate code unit must
be followed by a low-surrogate escape; a lone low surrogate is rejected (the
value domain has no lone surrogates). -/
def parseU : List Char → Except ParseError (List Char × List Char)
  | h1 :: h2 :: h3 :: h4 :: rest3 =>
    match uCode (hexVal h1) (hexVal h2) (hexVal h3) (hexVal h4) with
    | none => .error .bad
    | some code =>
      if 55296 ≤ code ∧ code ≤ 56319 then parseLowSur code rest3
      else if 56320 ≤ code ∧ code ≤ 57343 then .error .bad
      else consStr (Char.ofNat code) (parseStrBody rest3)
  | _ => .error .bad

/-- The low-surrogate escape following a high surrogate `hi`. -/
def parseLowSur (hi : Nat) : List Char → Except ParseError (List Char × List Char)
  | b1 :: u1 :: g1 :: g2 :: g3 :: g4 :: rest4 =>
    if b1 = '\\' ∧ u1 = 'u' then
      match uCode (hexVal g1) (hexVal g2) (hexVal g3) (hexVal g4) with
      | none => .error .bad
      | some lo =>
        if 56320 ≤ lo ∧ lo ≤ 57343 then
          consStr (Char.ofNat (65536 + (hi - 55296) * 1024 + (lo - 56320)))
            (parseStrBody rest4)
        else .error .bad
    else .error .bad
  | _ => .error .bad

end

/-- Wrap a parsed string body as a JSON string value. -/
def strResult :
    Except ParseError (List Char × List Char) →
      Except ParseError (JValue × List Char)
  | .ok (cs, r) => .ok (.str (String.mk cs), r)
  | .error err => .error err

/-- Wrap parsed members as an object value. -/
def objOf :
    Except ParseError (JObj × List Char) → Except ParseError (JValue × List Char)
  | .ok (kvs, r) => .ok (.obj kvs, r)
  | .error err => .error err

/-- Wrap parsed elements as an array value. -/
def arrOf :
    Except ParseError (JArr × List Char) → Except ParseError (JValue × List Char)
  | .ok (xs, r) => .ok (.arr xs, r)
  | .error err => .error err

/-- Prepend an element to an element-list parse result. -/
def consArr (v : JValue) :
    Except ParseError (JArr × List Char) → Except ParseError (JArr × List Char)
  | .ok (tl, r) => .ok (.cons v tl, r)
  | .error err => .error err

/-- Prepend a member to a member-list parse result. -/
def consObj (k : String) (v : JValue) :
    Except ParseError (JObj × List Char) → Except ParseError (JObj × List Char)
  | .ok (tl, r) => .ok (.cons k v tl, r)
  | .error err => .error err

/-- A negative numeral, the `-` already consumed. -/
def negIntResult (rest : List Char) : Except ParseError (JValue × List Char) :=
  match rest with
  | [] => .error .bad
  | d :: _ =>
    if d.isDigit then
      let p := parseDigits 0 rest
      .ok (.int (-(p.1 : Int)), p.2)
    else .error .bad

mutual

/-- Parse one JSON value (after optional leading whitespace). -/
def parseVal : Nat → List Char → Except ParseError (JValue × List Char)
  | 0, _ => .error .fuel
  | fuel + 1, s0 =>
    match skipWs s0 with
    | [] => .error .bad
    | c :: rest =>
      if c = '{' then
        match skipWs rest with
        | [] => objOf (parseMembers fuel [])
        | c2 :: rest2 =>
          if c2 = '}' then .ok (.obj .nil, rest2)
          else objOf (parseMembers fuel (c2 :: rest2))
      else if c = '[' then
        match skipWs rest with
        | [] => arrOf (parseElems fuel [])
        | c2 :: rest2 =>
          if c2 = ']' then .ok (.arr .nil, rest2)
          else arrOf (parseElems fuel (c2 :: rest2))
      else if c = '"' then strResult (parseStrBody rest)
      else if c = 't' then
        if rest.take 3 = ['r', 'u', 'e'] then .ok (.bool true, rest.drop 3)
        else .error .bad
      else if c = 'f' then
        if rest.take 4 = ['a', 'l', 's', 'e'] then .ok (.bool false, rest.drop 4)
        else .error .bad
      else if c = 'n' then
        if rest.take 3 = ['u', 'l', 'l'] then .ok (.null, rest.drop 3)
        else .error .bad
      else if c = '-' then negIntResult rest
      else if c.isDigit then
        let p := parseDigits 0 (c :: rest)
        .ok (.int (p.1 : Int), p.2)
      else .error .bad

/-- Parse the elements of a non-empty array, consuming the closing `]`. -/
def parseElems : Nat → List Char → Except ParseError (JArr × List Char)
  | 0, _ => .error .fuel
  | fuel + 1, s =>
    match parseVal fuel s with
    | .error err => .error err
    | .ok (v, r) =>
      match skipWs r with
      | [] => .error .bad
      | c2 :: r2 =>
        if c2 = ',' then consArr v (parseElems fuel r2)
        else if c2 = ']' then .ok (.cons v .nil, r2)
        else .error .bad

/-- Parse the members of a non-empty object, consuming the closing `}`. -/
def parseMembers : Nat → List Char → Except ParseError (JObj × List Char)
  | 0, _ => .error .fuel
  | fuel + 1, s =>
    match skipWs s with
    | [] => .error .bad
    | c :: rest =>
      if c = '"' then
        match parseStrBody rest with
        | .error err => .error err
        | .ok (kcs, r) =>
          match skipWs r with
          | [] => .error .bad
          | c2 :: r2 =>
            if c2 = ':' then
              match parseVal fuel r2 with
              | .error err => .error err
              | .ok (v, r3) =>
                match skipWs r3 with
                | [] => .error .bad
                | c3 :: r4 =>
                  if c3 = ',' then
                    consObj (String.mk kcs) v (parseMembers fuel r4)
                  else if c3 = '}' then .ok (.cons (String.mk kcs) v .nil, r4)
                  else .error .bad
            else .error .bad
      else .error .bad

end

/-- `simplejson.loads` on a character string: parse one value and require the
remainder to be whitespace (otherwise simplejson raises "Extra data"). -/
def loads (s : List Char) : Except ParseError JValue :=
  match parseVal (s.length + 1) s with
  | .error err => .error err
  | .ok (v, rest) =>
    if skipWs rest = [] then .ok v else .error .extraData

/-- `simplejson.loads` on a Python-2 byte string.  The token payloads the
claims exercise are ASCII; non-ASCII byte sequences (which simplejson would
attempt to decode as UTF-8) are modelled as parse failures. -/
def loadsBytes (bs : List Nat) : Except ParseError JValue :=
  if bs.all (· < 128) then loads (bs.map Char.ofNat) else .error .notAscii

/-! ## base64url: `base64.urlsafe_b64encode` / `base64.urlsafe_b64decode`

`crypt.py` line 259-267:

    def _urlsafe_b64encode(raw_bytes):
      return base64.urlsafe_b64encode(raw_bytes).rstrip('=')

    def _urlsafe_b64decode(b64string):
      b64string = b64string.encode('ascii')
      padded = b64string + '=' * (4 - len(b64string) % 4)
      return base64.urlsafe_b64decode(padded)

The decode path is `encode('ascii')` (raises `UnicodeDecodeError` on non-ASCII
bytes), explicit `=`-padding (note: a length divisible by 4 gets FOUR pads),
the `-_ → +/` translation, and CPython's `binascii.a2b_base64`. -/

inductive B64Error : Type where
  /-- `binascii.Error("Incorrect padding")`: buffered bits remained when the
  input was exhausted. -/
  | badPadding : B64Error
  /-- `UnicodeDecodeError` from `b64string.encode('ascii')` on a byte
  outside ASCII. -/
  | notAscii : B64Error
deriving DecidableEq

/-- The urlsafe base64 alphabet, indexed 0..63. -/
def encChar (v : Nat) : Char :=
  "ABCDEFGHIJKLMNOPQRSTUVWXYZabcdefghijklmnopqrstuvwxyz0123456789-_".data.getD v 'A'

/-- `table_a2b_base64` composed with `urlsafe_b64decode`'s `-_ → +/`
translation: the translation maps `-`/`_` onto `+`/`/` but leaves `+`/`/`
themselves intact, so all four decode. Characters outside the table give
`none` and are silently skipped by the `binascii` loop. -/
def decChar (c : Char) : Option Nat :=
  if 'A' ≤ c ∧ c ≤ 'Z' then some (c.toNat - 65)
  else if 'a' ≤ c ∧ c ≤ 'z' then some (c.toNat - 97 + 26)
  else if '0' ≤ c ∧ c ≤ '9' then some (c.toNat - 48 + 52)
  else if c = '-' ∨ c = '+' then some 62
  else if c = '_' ∨ c = '/' then some 63
  else none

/-- `binascii_find_valid(rest, 1)`: the next input character that is either in
the decode table or a pad (the C table maps `=` to a valid entry for this
look-ahead). -/
def findValid (l : List Char) : Option Char :=
  l.find? (fun c => c = '=' ∨ (decChar c).isSome)

/-- The `binascii.a2b_base64` decode loop.  State: `quadPos` counts alphabet
characters seen in the current quad (mod 4), `leftchar`/`leftbits` buffer
undischarged bits, `acc` is the output.  A pad at `quadPos < 2` is skipped, as
is a pad at `quadPos = 2` whose next valid character is not also a pad;
otherwise a pad terminates decoding (discarding buffered bits).  Characters
outside the table are skipped.  Leftover bits at the end of input raise
`binascii.Error("Incorrect padding")`. -/
def a2b : List Char → Nat → Nat → Nat → List Nat → Except B64Error (List Nat)
  | [], _, _, leftbits, acc =>
    if leftbits ≠ 0 then .error .badPadding else .ok acc
  | c :: rest, quadPos, leftchar, leftbits, acc =>
    if c = '=' then
      if quadPos < 2 ∨ (quadPos = 2 ∧ findValid rest ≠ some '=') then
        a2b rest quadPos leftchar leftbits acc
      else .ok acc
    else
      match decChar c with
      | none => a2b rest quadPos leftchar leftbits acc
      | some v =>
        let lc := leftchar * 64 + v
        let lb := leftbits + 6
        if 8 ≤ lb then
          a2b rest ((quadPos + 1) % 4) (lc % 2 ^ (lb - 8)) (lb - 8)
            (acc ++ [lc / 2 ^ (lb - 8)])
        else a2b rest ((quadPos + 1) % 4) lc lb acc

/-- `base64.b64encode` (with the urlsafe alphabet): 3-byte groups map to 4
alphabet characters; a 1- or 2-byte tail maps to 2 or 3 characters plus `=`
padding. -/
def b64encodePadded : List Nat → List Char
  | [] => []
  | [b1] => [encChar (b1 / 4), encChar (b1 % 4 * 16), '=', '=']
  | [b1, b2] =>
    [encChar (b1 / 4), encChar (b1 % 4 * 16 + b2 / 16), encChar (b2 % 16 * 4),
     '=']
  | b1 :: b2 :: b3 :: rest =>
    encChar (b1 / 4) :: encChar (b1 % 4 * 16 + b2 / 16) ::
      encChar (b2 % 16 * 4 + b3 / 64) :: encChar (b3 % 64) ::
      b64encodePadded rest

/-- Python `str.rstrip('=')`. -/
def rstripEq (l : List Char) : List Char :=
  (l.reverse.dropWhile (fun c => c = '=')).reverse

/-- `_urlsafe_b64encode`: urlsafe base64 of a byte string with the `=`
padding stripped. -/
def _urlsafe_b64encode (raw_bytes : List Nat) : List Char :=
  rstripEq (b64encodePadded raw_bytes)

/-- The pad count `4 - len(b64string) % 4` that `_urlsafe_b64decode` appends —
four pads, not zero, when the length is already divisible by 4. -/
def padCount (l : List Char) : Nat := 4 - l.length % 4

/-- `_urlsafe_b64decode`. -/
def _urlsafe_b64decode (b64string : List Char) : Except B64Error (List Nat) :=
  if b64string.any (fun c => 127 < c.toNat) then .error .notAscii
  else a2b (b64string ++ List.replicate (padCount b64string) '=') 0 0 0 []

/-! ## The crypt core: `make_signed_jwt` and `verify_signed_jwt_with_certs` -/

/-- Byte string of a Python-2 `str` (the identity reading of `str` as bytes;
all strings fed through this in the source are ASCII). -/
def strBytes (l : List Char) : List Nat := l.map Char.toNat

/-- `_json_encode(data)`: `simplejson.dumps(data, separators=(',', ':'))`. -/
def _json_encode (data : JValue) : List Char := data.dumps

/-- Python `str.split('.')`. -/
def splitOnDot : List Char → List (List Char)
  | [] => [[]]
  | c :: rest =>
    if c = '.' then [] :: splitOnDot rest
    else
      match splitOnDot rest with
      | [] => [[c]]
      | seg :: segs => (c :: seg) :: segs

/-- `make_signed_jwt(signer, payload)`: compact serialization
`b64url(json(header)) . b64url(json(payload)) . b64url(sign(signing_input))`
with the fixed header `{'typ': 'JWT', 'alg': 'RS256'}`.  The signer capability
is the function `sign` (RSA-SHA256 over the exact input bytes). -/
def make_signed_jwt (sign : List Nat → List Nat) (payload : JValue) :
    List Char :=
  let header : JValue :=
    .obj (.cons "typ" (.str "JWT") (.cons "alg" (.str "RS256") .nil))
  let seg0 := _urlsafe_b64encode (strBytes (_json_encode header))
  let seg1 := _urlsafe_b64encode (strBytes (_json_encode payload))
  let signingInput := seg0 ++ '.' :: seg1
  signingInput ++ '.' :: _urlsafe_b64encode (sign (strBytes signingInput))

/-- Outcomes of `verify_signed_jwt_with_certs`, one constructor per `raise`
site plus the exception kinds the function does NOT catch.  The spec's error
taxonomy maps onto these via `isMalformedTokenError` / `isMissingClaimError` /
`isAppIdentityError` below. -/
inductive VerifyError : Type where
  /-- `AppIdentityError('Wrong number of segments in token')`. -/
  | wrongSegments : VerifyError
  /-- `AppIdentityError("Can't parse token")` — the only `try/except` in the
  function, wrapped around `simplejson.loads`. -/
  | parseError : VerifyError
  /-- `AppIdentityError('Invalid token signature')`. -/
  | invalidSignature : VerifyError
  /-- `AppIdentityError('No iat field in token')`. -/
  | missingIat : VerifyError
  /-- `AppIdentityError('No exp field in token')`. -/
  | missingExp : VerifyError
  /-- `AppIdentityError('exp field too far in future')`. -/
  | expTooFar : VerifyError
  /-- `AppIdentityError('Token used too early')`. -/
  | tooEarly : VerifyError
  /-- `AppIdentityError('Token used too late')`. -/
  | tooLate : VerifyError
  /-- `AppIdentityError('No aud field in token')`. -/
  | missingAud : VerifyError
  /-- `AppIdentityError('Wrong recipient')`. -/
  | wrongRecipient : VerifyError
  /-- Uncaught `binascii.Error` / `UnicodeDecodeError` escaping from
  `_urlsafe_b64decode` (lines 326/329 have no exception handler). -/
  | b64Error (e : B64Error) : VerifyError
  /-- Uncaught `TypeError` from arithmetic on a non-numeric claim value
  (e.g. `iat - CLOCK_SKEW_SECS` with a string `iat`). -/
  | typeError : VerifyError
  /-- Uncaught `AttributeError` from `parsed.get` when the payload JSON is
  not an object. -/
  | attrError : VerifyError
deriving DecidableEq

/-- Errors the source raises as `AppIdentityError` (everything else escapes
uncategorized). -/
def isAppIdentityError : VerifyError → Bool
  | .b64Error _ => false
  | .typeError => false
  | .attrError => false
  | _ => true

/-- The spec's `MalformedTokenError` category: wrong segment count or
unparsable JSON payload. -/
def isMalformedTokenError : VerifyError → Bool
  | .wrongSegments => true
  | .parseError => true
  | _ => false

/-- The spec's `MissingClaimError` category. -/
def isMissingClaimError : VerifyError → Bool
  | .missingIat => true
  | .missingExp => true
  | .missingAud => true
  | _ => false

/-- Python-2 numeric coercion for claim arithmetic: ints are ints, bools are
their int values (`True == 1`); anything else makes `value - int` /
`value + int` raise `TypeError`. -/
def pyToInt : JValue → Option Int
  | .int n => some n
  | .bool b => some (if b then 1 else 0)
  | _ => none

/-- The comparison `exp >= now + MAX_TOKEN_LIFETIME_SECS` under Python-2
semantics: numeric for ints/bools.  For mismatched types CPython-2's
`default_3way_compare` compares type names without raising, and a number is
given the empty name, so numbers sort below every non-numeric object: with
`now + MAX` a `long`, a `str`, `list` or `dict` exp all compare greater and
satisfy the `>=`.  `None` would compare smaller than anything, but cannot
reach this comparison (the `is None` check precedes it). -/
def pyGeInt : JValue → Int → Bool
  | .int n, m => decide (m ≤ n)
  | .bool b, m => decide (m ≤ if b then 1 else 0)
  | .str _, _ => true
  | .arr _, _ => true
  | .obj _, _ => true
  | .null, _ => false

/-- Python equality `aud == audience` against the expected audience string:
only an equal string compares equal; any other value (or different string)
is simply unequal, without raising. -/
def jEqStr : JValue → String → Bool
  | .str s, a => decide (s = a)
  | _, _ => false

/-- The certificate loop of lines 336-343: iterate `certs.items()`, construct
a certificate-mode Verifier for each PEM and test the signature, stopping at
the first success (`break`).  The capability provider is the predicate
`pemVerify`. -/
def checkSig (pemVerify : String → List Nat → List Nat → Bool)
    (certs : List (String × String)) (msg sig : List Nat) : Bool :=
  match certs with
  | [] => false
  | (_, pem) :: rest => pemVerify pem msg sig || checkSig pemVerify rest msg sig

/-- Lines 345-375: the claim checks performed on the parsed payload after the
signature has been validated, in source order: `iat` presence, `earliest =
iat - CLOCK_SKEW_SECS` (a `TypeError` site for non-numeric `iat`), `exp`
presence, the lifetime cap `exp >= now + MAX_TOKEN_LIFETIME_SECS`, `latest =
exp + CLOCK_SKEW_SECS` (a `TypeError` site), `now < earliest`,
`now > latest`, then the audience checks. -/
def claimChecks (audience : Option String) (now : Int) (parsed : JValue) :
    Except VerifyError JValue :=
  match parsed with
  | .obj kvs =>
    match pyDictGet kvs "iat" with
    | none => .error .missingIat
    | some iatV =>
      match pyToInt iatV with
      | none => .error .typeError
      | some iat =>
        let earliest := iat - 300
        match pyDictGet kvs "exp" with
        | none => .error .missingExp
        | some expV =>
          if pyGeInt expV (now + 86400) then .error .expTooFar
          else
            match pyToInt expV with
            | none => .error .typeError
            | some exp =>
              let latest := exp + 300
              if now < earliest then .error .tooEarly
              else if now > latest then .error .tooLate
              else
                match audience with
                | none => .ok parsed
                | some aud =>
                  match pyDictGet kvs "aud" with
                  | none => .error .missingAud
                  | some audV =>
                    if jEqStr audV aud then .ok parsed
                    else .error .wrongRecipient
  | _ => .error .attrError

/-- `verify_signed_jwt_with_certs(jwt, certs, audience)` at clock reading
`now` (the source's `long(time.time())`), with the certificate-interpreting
verifier capability `pemVerify`:

1. split on `.`, requiring exactly 3 segments;
2. `signed = segments[0] + '.' + segments[1]`;
3. base64url-decode the signature segment, then the payload segment (decode
   exceptions propagate uncaught);
4. JSON-parse the payload (failures become `AppIdentityError`);
5. try every certificate until one verifies the signature;
6. run the claim checks of `claimChecks`. -/
def verify_signed_jwt_with_certs
    (pemVerify : String → List Nat → List Nat → Bool) (jwt : List Char)
    (certs : List (String × String)) (audience : Option String) (now : Int) :
    Except VerifyError JValue :=
  match splitOnDot jwt with
  | [s0, s1, s2] =>
    let signed := s0 ++ '.' :: s1
    match _urlsafe_b64decode s2 with
    | .error e => .error (.b64Error e)
    | .ok signature =>
      match _urlsafe_b64decode s1 with
      | .error e => .error (.b64Error e)
      | .ok json_body =>
        match loadsBytes json_body with
        | .error _ => .error .parseError
        | .ok parsed =>
          if checkSig pemVerify certs (strBytes signed) signature then
            claimChecks audience now parsed
          else .error .invalidSignature
  | _ => .error .wrongSegments

/-! ## The Verifier capability's `verify` predicate (spec section 4.1)

`OpenSSLVerifier.verify` wraps `crypto.verify` (which returns `None` on
success and raises on failure) in a bare `try/except` returning `False`;
`PyCryptoVerifier.verify` does the same around `PKCS1_v1_5.verify` (which
returns a bool or raises).  The underlying primitive call is modelled by its
outcome: a returned value, or a raised exception. -/

inductive PyResult (α : Type) : Type where
  /-- The primitive call returned a value. -/
  | ok (a : α) : PyResult α
  /-- The primitive call raised (any exception whatsoever). -/
  | exn : PyResult α

/-- `OpenSSLVerifier.verify`: `True` iff `crypto.verify` returned, `False` on
any exception. -/
def opensslVerify (prim : PyResult Unit) : Bool :=
  match prim with
  | .ok _ => true
  | .exn => false

/-- `PyCryptoVerifier.verify`: the boolean returned by `PKCS1_v1_5.verify`,
or `False` on any exception. -/
def pyCryptoVerify (prim : PyResult Bool) : Bool :=
  match prim with
  | .ok b => b
  | .exn => false

/-! ## Supporting lemmas: characters and the base64 alphabet -/

theorem decChar_encChar : ∀ v < 64, decChar (encChar v) = some v := by decide

theorem decChar_pad : decChar '=' = none := by decide

theorem encChar_ne_pad (v : Nat) : encChar v ≠ '=' := by
  by_cases h : v < 64
  · intro heq
    have := decChar_encChar v h
    rw [heq, decChar_pad] at this
    exact Option.noConfusion this
  · have hlen :
        ("ABCDEFGHIJKLMNOPQRSTUVWXYZabcdefghijklmnopqrstuvwxyz0123456789-_".data).length ≤ v := by
      have : ("ABCDEFGHIJKLMNOPQRSTUVWXYZabcdefghijklmnopqrstuvwxyz0123456789-_".data).length = 64 := by decide
      omega
    unfold encChar
    rw [List.getD_eq_default _ _ hlen]
    decide

theorem encChar_ne_dot (v : Nat) : encChar v ≠ '.' := by
  by_cases h : v < 64
  · intro heq
    have h2 := decChar_encChar v h
    rw [heq] at h2
    have : decChar '.' = none := by decide
    rw [this] at h2
    exact Option.noConfusion h2
  · have hlen :
        ("ABCDEFGHIJKLMNOPQRSTUVWXYZabcdefghijklmnopqrstuvwxyz0123456789-_".data).length ≤ v := by
      have : ("ABCDEFGHIJKLMNOPQRSTUVWXYZabcdefghijklmnopqrstuvwxyz0123456789-_".data).length = 64 := by decide
      omega
    unfold encChar
    rw [List.getD_eq_default _ _ hlen]
    decide

theorem digitChar_isDigit : ∀ k < 10, (Char.ofNat (48 + k)).isDigit = true := by
  decide

theorem digitChar_toNat : ∀ k < 10, (Char.ofNat (48 + k)).toNat = 48 + k := by
  decide

theorem isDigit_facts (c : Char) (h : c.isDigit = true) :
    isWsChar c = false ∧ c ≠ '{' ∧ c ≠ '[' ∧ c ≠ '"' ∧ c ≠ 't' ∧ c ≠ 'f' ∧
      c ≠ 'n' ∧ c ≠ '-' := by
  refine ⟨?_, ?_, ?_, ?_, ?_, ?_, ?_, ?_⟩
  · simp only [isWsChar, decide_eq_false_iff_not]
    rintro (rfl | rfl | rfl | rfl) <;> exact absurd h (by decide)
  all_goals rintro rfl; exact absurd h (by decide)

/-! ## Supporting lemmas: `skipWs`, `parseDigits`, `natChars` -/

theorem skipWs_cons (c : Char) (l : List Char) (h : isWsChar c = false) :
    skipWs (c :: l) = c :: l := by
  simp [skipWs, h]

theorem skipWs_nil : skipWs [] = [] := rfl

/-- The remainders that legitimately follow a JSON value inside a document:
nothing, or an item/closing delimiter.  Digit scanning stops at all of them. -/
def DelimOk : List Char → Prop
  | [] => True
  | c :: _ => c = ',' ∨ c = ']' ∨ c = '}'

theorem parseDigits_stop (acc : Nat) (r : List Char) (h : DelimOk r) :
    parseDigits acc r = (acc, r) := by
  cases r with
  | nil => rfl
  | cons c rest =>
    rcases h with rfl | rfl | rfl <;> simp [parseDigits]

theorem natChars_ne_nil (n : Nat) : natChars n ≠ [] := by
  unfold natChars
  split <;> simp

theorem natChars_digits (n : Nat) : ∀ c ∈ natChars n, c.isDigit = true := by
  induction n using Nat.strong_induction_on with
  | _ n ih =>
    intro c hc
    unfold natChars at hc
    split at hc
    · simp only [List.mem_singleton] at hc
      subst hc
      exact digitChar_isDigit n (by omega)
    · rw [List.mem_append, List.mem_singleton] at hc
      rcases hc with hc | rfl
      · exact ih (n / 10) (Nat.div_lt_self (by omega) (by omega)) c hc
      · exact digitChar_isDigit (n % 10) (Nat.mod_lt _ (by omega))

theorem parseDigits_natChars (n : Nat) :
    ∀ acc r, parseDigits acc (natChars n ++ r) =
      parseDigits (acc * 10 ^ (natChars n).length + n) r := by
  induction n using Nat.strong_induction_on with
  | _ n ih =>
    intro acc r
    by_cases h : n < 10
    · unfold natChars
      rw [dif_pos h]
      simp only [List.singleton_append, List.length_singleton, pow_one]
      rw [parseDigits, if_pos (digitChar_isDigit n h), digitChar_toNat n h]
      congr 1
      omega
    · conv_lhs => rw [natChars]
      conv_rhs => rw [natChars]
      rw [dif_neg h, List.append_assoc, List.singleton_append,
        ih (n / 10) (Nat.div_lt_self (by omega) (by omega))]
      have hd : (Char.ofNat (48 + n % 10)).isDigit = true :=
        digitChar_isDigit (n % 10) (Nat.mod_lt _ (by omega))
      rw [parseDigits, if_pos hd, digitChar_toNat (n % 10) (Nat.mod_lt _ (by omega))]
      congr 1
      have hlen : (natChars (n / 10) ++ [Char.ofNat (48 + n % 10)]).length =
          (natChars (n / 10)).length + 1 := by simp
      rw [hlen, pow_succ]
      have h48 : 48 + n % 10 - 48 = n % 10 := by omega
      rw [h48]
      have h1 : n / 10 * 10 + n % 10 = n := by omega
      calc (acc * 10 ^ (natChars (n / 10)).length + n / 10) * 10 + n % 10
          = acc * (10 ^ (natChars (n / 10)).length * 10) + (n / 10 * 10 + n % 10) := by
            ring
        _ = acc * (10 ^ (natChars (n / 10)).length * 10) + n := by
            rw [h1]

/-! ## Supporting lemmas: `splitOnDot` and `rstripEq` -/

theorem splitOnDot_no_dot (l : List Char) (h : '.' ∉ l) : splitOnDot l = [l] := by
  induction l with
  | nil => rfl
  | cons c rest ih =>
    have hc : c ≠ '.' := fun heq => h (heq ▸ List.mem_cons_self c rest)
    have hrest : '.' ∉ rest := fun hm => h (List.mem_cons_of_mem c hm)
    rw [splitOnDot, if_neg hc, ih hrest]

theorem splitOnDot_append (a r : List Char) (h : '.' ∉ a) :
    splitOnDot (a ++ '.' :: r) = a :: splitOnDot r := by
  induction a with
  | nil =>
    simp [splitOnDot]
  | cons c a2 ih =>
    have hc : c ≠ '.' := fun heq => h (heq ▸ List.mem_cons_self c a2)
    have ha2 : '.' ∉ a2 := fun hm => h (List.mem_cons_of_mem c hm)
    rw [List.cons_append, splitOnDot, if_neg hc, ih ha2]

theorem splitOnDot_three (a b c : List Char) (ha : '.' ∉ a) (hb : '.' ∉ b)
    (hc : '.' ∉ c) : splitOnDot (a ++ '.' :: (b ++ '.' :: c)) = [a, b, c] := by
  rw [splitOnDot_append a _ ha, splitOnDot_append b _ hb, splitOnDot_no_dot c hc]

/-! ## Supporting lemmas: string escaping round-trips through the parser -/

theorem hexVal_hexDigitChar : ∀ n < 16, hexVal (hexDigitChar n) = some n := by
  decide

theorem char_toNat_valid (c : Char) : Nat.isValidChar c.toNat := by
  simpa [Char.toNat, UInt32.isValidChar] using c.valid

theorem char_not_surrogate (c : Char) :
    ¬(55296 ≤ c.toNat ∧ c.toNat ≤ 57343) := by
  have h := char_toNat_valid c
  unfold Nat.isValidChar at h
  omega

theorem char_toNat_lt (c : Char) : c.toNat < 1114112 := by
  have h := char_toNat_valid c
  unfold Nat.isValidChar at h
  omega

theorem psbEsc_named (c d : Char) (t : List Char)
    (res : Except ParseError (List Char × List Char))
    (hd : escCharOf d = some c) (hne : d ≠ 'u') (ht : parseStrBody t = res) :
    parseStrBody ('\\' :: d :: t) = consStr c res := by
  simp [parseStrBody, parseEsc, hne, hd, ht]

theorem psbEsc_u (c : Char) (t : List Char)
    (res : Except ParseError (List Char × List Char))
    (ht : parseStrBody t = res) (hlt : c.toNat < 65536) :
    parseStrBody ('\\' :: 'u' :: hexDigitChar (c.toNat / 4096) ::
      hexDigitChar (c.toNat / 256 % 16) :: hexDigitChar (c.toNat / 16 % 16) ::
      hexDigitChar (c.toNat % 16) :: t) = consStr c res := by
  have e1 : hexVal (hexDigitChar (c.toNat / 4096)) = some (c.toNat / 4096) :=
    hexVal_hexDigitChar _ (by omega)
  have e2 : hexVal (hexDigitChar (c.toNat / 256 % 16)) =
      some (c.toNat / 256 % 16) := hexVal_hexDigitChar _ (by omega)
  have e3 : hexVal (hexDigitChar (c.toNat / 16 % 16)) =
      some (c.toNat / 16 % 16) := hexVal_hexDigitChar _ (by omega)
  have e4 : hexVal (hexDigitChar (c.toNat % 16)) = some (c.toNat % 16) :=
    hexVal_hexDigitChar _ (by omega)
  have hcode : c.toNat / 4096 * 4096 + c.toNat / 256 % 16 * 256 +
      c.toNat / 16 % 16 * 16 + c.toNat % 16 = c.toNat := by omega
  have hs := char_not_surrogate c
  have hno1 : ¬(55296 ≤ c.toNat ∧ c.toNat ≤ 56319) := by omega
  have hno2 : ¬(56320 ≤ c.toNat ∧ c.toNat ≤ 57343) := by omega
  simp [parseStrBody, parseEsc, parseU, uCode, e1, e2, e3, e4, hcode,
    hno1, hno2, ht, Char.ofNat_toNat]

theorem psb_backslash (rest : List Char) :
    parseStrBody ('\\' :: rest) = parseEsc rest := by
  simp [parseStrBody]

theorem parseEsc_u (rest2 : List Char) : parseEsc ('u' :: rest2) = parseU rest2 := by
  simp [parseEsc]

theorem parseU_vals (a b k d : Nat) (h1 h2 h3 h4 : Char) (rest3 : List Char)
    (e1 : hexVal h1 = some a) (e2 : hexVal h2 = some b)
    (e3 : hexVal h3 = some k) (e4 : hexVal h4 = some d) :
    parseU (h1 :: h2 :: h3 :: h4 :: rest3) =
      (if 55296 ≤ a * 4096 + b * 256 + k * 16 + d ∧
          a * 4096 + b * 256 + k * 16 + d ≤ 56319 then
        parseLowSur (a * 4096 + b * 256 + k * 16 + d) rest3
      else if 56320 ≤ a * 4096 + b * 256 + k * 16 + d ∧
          a * 4096 + b * 256 + k * 16 + d ≤ 57343 then .error .bad
      else consStr (Char.ofNat (a * 4096 + b * 256 + k * 16 + d))
        (parseStrBody rest3)) := by
  simp [parseU, uCode, e1, e2, e3, e4]

theorem parseLowSur_vals (hi a b k d : Nat) (g1 g2 g3 g4 : Char)
    (t : List Char) (e1 : hexVal g1 = some a) (e2 : hexVal g2 = some b)
    (e3 : hexVal g3 = some k) (e4 : hexVal g4 = some d) :
    parseLowSur hi ('\\' :: 'u' :: g1 :: g2 :: g3 :: g4 :: t) =
      (if 56320 ≤ a * 4096 + b * 256 + k * 16 + d ∧
          a * 4096 + b * 256 + k * 16 + d ≤ 57343 then
        consStr (Char.ofNat (65536 + (hi - 55296) * 1024 +
          (a * 4096 + b * 256 + k * 16 + d - 56320))) (parseStrBody t)
      else .error .bad) := by
  simp [parseLowSur, uCode, e1, e2, e3, e4]

theorem psbEsc_sur (c : Char) (t : List Char)
    (res : Except ParseError (List Char × List Char))
    (ht : parseStrBody t = res) (hge : 65536 ≤ c.toNat) :
    parseStrBody ('\\' :: 'u' ::
      hexDigitChar ((55296 + (c.toNat - 65536) / 1024) / 4096) ::
      hexDigitChar ((55296 + (c.toNat - 65536) / 1024) / 256 % 16) ::
      hexDigitChar ((55296 + (c.toNat - 65536) / 1024) / 16 % 16) ::
      hexDigitChar ((55296 + (c.toNat - 65536) / 1024) % 16) :: '\\' :: 'u' ::
      hexDigitChar ((56320 + (c.toNat - 65536) % 1024) / 4096) ::
      hexDigitChar ((56320 + (c.toNat - 65536) % 1024) / 256 % 16) ::
      hexDigitChar ((56320 + (c.toNat - 65536) % 1024) / 16 % 16) ::
      hexDigitChar ((56320 + (c.toNat - 65536) % 1024) % 16) :: t) =
      consStr c res := by
  have hlt := char_toNat_lt c
  have e1 : hexVal (hexDigitChar ((55296 + (c.toNat - 65536) / 1024) / 4096)) =
      some ((55296 + (c.toNat - 65536) / 1024) / 4096) :=
    hexVal_hexDigitChar _ (by omega)
  have e2 : hexVal (hexDigitChar ((55296 + (c.toNat - 65536) / 1024) / 256 % 16)) =
      some ((55296 + (c.toNat - 65536) / 1024) / 256 % 16) :=
    hexVal_hexDigitChar _ (by omega)
  have e3 : hexVal (hexDigitChar ((55296 + (c.toNat - 65536) / 1024) / 16 % 16)) =
      some ((55296 + (c.toNat - 65536) / 1024) / 16 % 16) :=
    hexVal_hexDigitChar _ (by omega)
  have e4 : hexVal (hexDigitChar ((55296 + (c.toNat - 65536) / 1024) % 16)) =
      some ((55296 + (c.toNat - 65536) / 1024) % 16) :=
    hexVal_hexDigitChar _ (by omega)
  have f1 : hexVal (hexDigitChar ((56320 + (c.toNat - 65536) % 1024) / 4096)) =
      some ((56320 + (c.toNat - 65536) % 1024) / 4096) :=
    hexVal_hexDigitChar _ (by omega)
  have f2 : hexVal (hexDigitChar ((56320 + (c.toNat - 65536) % 1024) / 256 % 16)) =
      some ((56320 + (c.toNat - 65536) % 1024) / 256 % 16) :=
    hexVal_hexDigitChar _ (by omega)
  have f3 : hexVal (hexDigitChar ((56320 + (c.toNat - 65536) % 1024) / 16 % 16)) =
      some ((56320 + (c.toNat - 65536) % 1024) / 16 % 16) :=
    hexVal_hexDigitChar _ (by omega)
  have f4 : hexVal (hexDigitChar ((56320 + (c.toNat - 65536) % 1024) % 16)) =
      some ((56320 + (c.toNat - 65536) % 1024) % 16) :=
    hexVal_hexDigitChar _ (by omega)
  have hcodeHi : (55296 + (c.toNat - 65536) / 1024) / 4096 * 4096 +
      (55296 + (c.toNat - 65536) / 1024) / 256 % 16 * 256 +
      (55296 + (c.toNat - 65536) / 1024) / 16 % 16 * 16 +
      (55296 + (c.toNat - 65536) / 1024) % 16 =
      55296 + (c.toNat - 65536) / 1024 := by omega
  have hcodeLo : (56320 + (c.toNat - 65536) % 1024) / 4096 * 4096 +
      (56320 + (c.toNat - 65536) % 1024) / 256 % 16 * 256 +
      (56320 + (c.toNat - 65536) % 1024) / 16 % 16 * 16 +
      (56320 + (c.toNat - 65536) % 1024) % 16 =
      56320 + (c.toNat - 65536) % 1024 := by omega
  have hyes1 : 55296 ≤ 55296 + (c.toNat - 65536) / 1024 ∧
      55296 + (c.toNat - 65536) / 1024 ≤ 56319 := by omega
  have hyes2 : 56320 ≤ 56320 + (c.toNat - 65536) % 1024 ∧
      56320 + (c.toNat - 65536) % 1024 ≤ 57343 := by omega
  rw [psb_backslash, parseEsc_u,
    parseU_vals _ _ _ _ _ _ _ _ _ e1 e2 e3 e4, hcodeHi, if_pos hyes1,
    parseLowSur_vals _ _ _ _ _ _ _ _ _ _ f1 f2 f3 f4, hcodeLo, if_pos hyes2,
    ht]
  have harg : 65536 + (55296 + (c.toNat - 65536) / 1024 - 55296) * 1024 +
      (56320 + (c.toNat - 65536) % 1024 - 56320) = c.toNat := by omega
  rw [harg, Char.ofNat_toNat]

theorem psbEsc_plain (c : Char) (t : List Char)
    (res : Except ParseError (List Char × List Char))
    (ht : parseStrBody t = res) (h1 : c ≠ '"') (h2 : c ≠ '\\') :
    parseStrBody (c :: t) = consStr c res := by
  simp [parseStrBody, h1, h2, ht]

theorem parseStrBody_escStr (cs : List Char) :
    ∀ r, parseStrBody (escStr cs ++ '"' :: r) = .ok (cs, r) := by
  induction cs with
  | nil =>
    intro r
    rw [escStr, List.nil_append]
    simp [parseStrBody]
  | cons c cs ih =>
    intro r
    rw [escStr, List.append_assoc]
    by_cases h1 : c = '"'
    · subst h1
      rw [show escapeChar '"' = ['\\', '"'] from rfl]
      simp only [List.cons_append, List.nil_append]
      rw [psbEsc_named '"' '"' _ _ (by decide) (by decide) (ih r)]
      rfl
    by_cases h2 : c = '\\'
    · subst h2
      rw [show escapeChar '\\' = ['\\', '\\'] from rfl]
      simp only [List.cons_append, List.nil_append]
      rw [psbEsc_named '\\' '\\' _ _ (by decide) (by decide) (ih r)]
      rfl
    by_cases h3 : c = Char.ofNat 8
    · subst h3
      rw [show escapeChar (Char.ofNat 8) = ['\\', 'b'] from rfl]
      simp only [List.cons_append, List.nil_append]
      rw [psbEsc_named (Char.ofNat 8) 'b' _ _ (by decide) (by decide) (ih r)]
      rfl
    by_cases h4 : c = Char.ofNat 9
    · subst h4
      rw [show escapeChar (Char.ofNat 9) = ['\\', 't'] from rfl]
      simp only [List.cons_append, List.nil_append]
      rw [psbEsc_named (Char.ofNat 9) 't' _ _ (by decide) (by decide) (ih r)]
      rfl
    by_cases h5 : c = Char.ofNat 10
    · subst h5
      rw [show escapeChar (Char.ofNat 10) = ['\\', 'n'] from rfl]
      simp only [List.cons_append, List.nil_append]
      rw [psbEsc_named (Char.ofNat 10) 'n' _ _ (by decide) (by decide) (ih r)]
      rfl
    by_cases h6 : c = Char.ofNat 12
    · subst h6
      rw [show escapeChar (Char.ofNat 12) = ['\\', 'f'] from rfl]
      simp only [List.cons_append, List.nil_append]
      rw [psbEsc_named (Char.ofNat 12) 'f' _ _ (by decide) (by decide) (ih r)]
      rfl
    by_cases h7 : c = Char.ofNat 13
    · subst h7
      rw [show escapeChar (Char.ofNat 13) = ['\\', 'r'] from rfl]
      simp only [List.cons_append, List.nil_append]
      rw [psbEsc_named (Char.ofNat 13) 'r' _ _ (by decide) (by decide) (ih r)]
      rfl
    by_cases h8 : c.toNat < 32
    · have hesc : escapeChar c = '\\' :: 'u' :: hex4 c.toNat := by
        rw [escapeChar, if_neg h1, if_neg h2, if_neg h3, if_neg h4, if_neg h5,
          if_neg h6, if_neg h7, if_pos h8]
      rw [hesc, hex4]
      simp only [List.cons_append, List.nil_append]
      rw [psbEsc_u c _ _ (ih r) (by omega)]
      rfl
    by_cases h9 : c.toNat ≤ 126
    · have hesc : escapeChar c = [c] := by
        rw [escapeChar, if_neg h1, if_neg h2, if_neg h3, if_neg h4, if_neg h5,
          if_neg h6, if_neg h7, if_neg h8, if_pos h9]
      rw [hesc]
      simp only [List.singleton_append]
      rw [psbEsc_plain c _ _ (ih r) h1 h2]
      rfl
    by_cases h10 : c.toNat < 65536
    · have hesc : escapeChar c = '\\' :: 'u' :: hex4 c.toNat := by
        rw [escapeChar, if_neg h1, if_neg h2, if_neg h3, if_neg h4, if_neg h5,
          if_neg h6, if_neg h7, if_neg h8, if_neg h9, if_pos h10]
      rw [hesc, hex4]
      simp only [List.cons_append, List.nil_append]
      rw [psbEsc_u c _ _ (ih r) h10]
      rfl
    · have hesc : escapeChar c = '\\' :: 'u' ::
          hex4 (55296 + (c.toNat - 65536) / 1024) ++
          ('\\' :: 'u' :: hex4 (56320 + (c.toNat - 65536) % 1024)) := by
        rw [escapeChar, if_neg h1, if_neg h2, if_neg h3, if_neg h4, if_neg h5,
          if_neg h6, if_neg h7, if_neg h8, if_neg h9, if_neg h10]
      rw [hesc, hex4, hex4]
      simp only [List.cons_append, List.nil_append, List.append_assoc]
      rw [psbEsc_sur c _ _ (ih r) (by omega)]
      rfl

theorem rstripEq_nil : rstripEq [] = [] := rfl

theorem rstripEq_quad (c1 c2 c3 c4 : Char) (m : List Char) (h : c4 ≠ '=') :
    rstripEq (c1 :: c2 :: c3 :: c4 :: m) = c1 :: c2 :: c3 :: c4 :: rstripEq m := by
  unfold rstripEq
  have hrev : (c1 :: c2 :: c3 :: c4 :: m).reverse =
      m.reverse ++ [c4, c3, c2, c1] := by simp
  rw [hrev, List.dropWhile_append]
  by_cases he : (m.reverse.dropWhile (fun c => c = '=')).isEmpty = true
  · rw [if_pos he]
    rw [List.isEmpty_iff] at he
    simp [List.dropWhile_cons, h, he]
  · rw [if_neg he]
    simp

/-! ## Supporting lemmas: the parser inverts `dumps` -/

mutual

/-- Fuel measure: nodes of a JSON value, counting one unit per nesting level
and one per element/member, matching the parser's fuel consumption. -/
def jsize : JValue → Nat
  | .null => 1
  | .bool _ => 1
  | .int _ => 1
  | .str _ => 1
  | .arr a => 1 + asize a
  | .obj o => 1 + osize o

def asize : JArr → Nat
  | .nil => 0
  | .cons v tl => 1 + jsize v + asize tl

def osize : JObj → Nat
  | .nil => 0
  | .cons _ v tl => 1 + jsize v + osize tl

end

theorem jsize_pos (v : JValue) : 1 ≤ jsize v := by
  cases v <;> simp [jsize]

theorem stringMk_data (s : String) : String.mk s.data = s := rfl

theorem isDigit_ne2 (c : Char) (h : c.isDigit = true) :
    c ≠ ']' ∧ c ≠ '}' := by
  constructor <;> (rintro rfl; exact absurd h (by decide))

theorem parseDigits_natChars_delim (n : Nat) (r : List Char) (h : DelimOk r) :
    parseDigits 0 (natChars n ++ r) = (n, r) := by
  rw [parseDigits_natChars, parseDigits_stop _ _ h]
  simp

theorem pv_null (fuel : Nat) (r : List Char) :
    parseVal (fuel + 1) ('n' :: 'u' :: 'l' :: 'l' :: r) = .ok (.null, r) := by
  simp [parseVal, skipWs, isWsChar]

theorem pv_true (fuel : Nat) (r : List Char) :
    parseVal (fuel + 1) ('t' :: 'r' :: 'u' :: 'e' :: r) = .ok (.bool true, r) := by
  simp [parseVal, skipWs, isWsChar]

theorem pv_false (fuel : Nat) (r : List Char) :
    parseVal (fuel + 1) ('f' :: 'a' :: 'l' :: 's' :: 'e' :: r) =
      .ok (.bool false, r) := by
  simp [parseVal, skipWs, isWsChar]

theorem pv_str (fuel : Nat) (s : String) (r : List Char) :
    parseVal (fuel + 1) ('"' :: (escStr s.data ++ '"' :: r)) =
      .ok (.str s, r) := by
  simp [parseVal, skipWs, isWsChar, parseStrBody_escStr, strResult, stringMk_data]

theorem pv_int (fuel : Nat) (n : Int) (r : List Char) (hd : DelimOk r) :
    parseVal (fuel + 1) (intChars n ++ r) = .ok (.int n, r) := by
  by_cases hn : n < 0
  · rw [intChars, if_pos hn]
    obtain ⟨c0, ds, heq⟩ := List.exists_cons_of_ne_nil (natChars_ne_nil n.natAbs)
    have hdig : c0.isDigit = true := natChars_digits _ c0 (heq ▸ List.mem_cons_self c0 ds)
    rw [heq]
    simp only [List.cons_append]
    have hp : parseDigits 0 (c0 :: (ds ++ r)) = (n.natAbs, r) := by
      rw [← List.cons_append, ← heq, parseDigits_natChars_delim _ _ hd]
    simp [parseVal, skipWs, isWsChar, negIntResult, hdig, hp]
    rw [abs_of_neg hn, neg_neg]
  · rw [intChars, if_neg hn]
    obtain ⟨c0, ds, heq⟩ := List.exists_cons_of_ne_nil (natChars_ne_nil n.toNat)
    have hdig : c0.isDigit = true := natChars_digits _ c0 (heq ▸ List.mem_cons_self c0 ds)
    obtain ⟨hw, hb1, hb2, hb3, hb4, hb5, hb6, hb7⟩ := isDigit_facts c0 hdig
    have hw2 : ¬(c0 = ' ' ∨ c0 = Char.ofNat 9 ∨ c0 = Char.ofNat 10 ∨
        c0 = Char.ofNat 13) := by simpa [isWsChar] using hw
    rw [heq]
    simp only [List.cons_append]
    have hp : parseDigits 0 (c0 :: (ds ++ r)) = (n.toNat, r) := by
      rw [← List.cons_append, ← heq, parseDigits_natChars_delim _ _ hd]
    have hval : ((n.toNat : Nat) : Int) = n := by omega
    simp [parseVal, skipWs, isWsChar, hw2, hb1, hb2, hb3, hb4, hb5, hb6, hb7,
      hdig, hp, hval]

theorem pv_arr_nil (fuel : Nat) (r : List Char) :
    parseVal (fuel + 1) ('[' :: ']' :: r) = .ok (.arr .nil, r) := by
  simp [parseVal, skipWs, isWsChar]

theorem pv_obj_nil (fuel : Nat) (r : List Char) :
    parseVal (fuel + 1) ('{' :: '}' :: r) = .ok (.obj .nil, r) := by
  simp [parseVal, skipWs, isWsChar]

/-- The first character of any serialized JSON value: never whitespace, never
a closing delimiter. -/
theorem dumps_head (v : JValue) :
    ∃ c0 ds, JValue.dumps v = c0 :: ds ∧ isWsChar c0 = false ∧
      c0 ≠ ']' ∧ c0 ≠ '}' := by
  cases v with
  | null => exact ⟨'n', _, rfl, by decide, by decide, by decide⟩
  | bool b =>
    cases b
    · exact ⟨'f', _, rfl, by decide, by decide, by decide⟩
    · exact ⟨'t', _, rfl, by decide, by decide, by decide⟩
  | int n =>
    rw [show JValue.dumps (.int n) = intChars n from rfl, intChars]
    by_cases hn : n < 0
    · rw [if_pos hn]
      exact ⟨'-', _, rfl, by decide, by decide, by decide⟩
    · rw [if_neg hn]
      obtain ⟨c0, ds, heq⟩ := List.exists_cons_of_ne_nil (natChars_ne_nil n.toNat)
      have hdig : c0.isDigit = true :=
        natChars_digits _ c0 (heq ▸ List.mem_cons_self c0 ds)
      obtain ⟨hw, _⟩ := isDigit_facts c0 hdig
      obtain ⟨hn1, hn2⟩ := isDigit_ne2 c0 hdig
      exact ⟨c0, ds, heq, hw, hn1, hn2⟩
  | str s => exact ⟨'"', _, rfl, by decide, by decide, by decide⟩
  | arr a => exact ⟨'[', _, rfl, by decide, by decide, by decide⟩
  | obj o => exact ⟨'{', _, rfl, by decide, by decide, by decide⟩

theorem pv_arr_cons (fuel : Nat) (a : JArr) (v0 : JValue) (tl0 : JArr)
    (ha : a = .cons v0 tl0) (r : List Char)
    (helems : parseElems fuel (JArr.dumps a ++ ']' :: r) = .ok (a, r)) :
    parseVal (fuel + 1) ('[' :: (JArr.dumps a ++ ']' :: r)) = .ok (.arr a, r) := by
  have hhead : ∃ c0 ds, JArr.dumps a = c0 :: ds ∧ isWsChar c0 = false ∧
      c0 ≠ ']' := by
    obtain ⟨c0, ds, heq, hw, hne, _⟩ := dumps_head v0
    subst ha
    cases tl0 with
    | nil => exact ⟨c0, ds, heq, hw, hne⟩
    | cons w tl =>
      rw [show JArr.dumps (.cons v0 (.cons w tl)) =
        JValue.dumps v0 ++ ',' :: JArr.dumps (.cons w tl) from rfl, heq]
      exact ⟨c0, _, rfl, hw, hne⟩
  obtain ⟨c0, ds, heq, hw, hne⟩ := hhead
  have hw2 : ¬(c0 = ' ' ∨ c0 = Char.ofNat 9 ∨ c0 = Char.ofNat 10 ∨
      c0 = Char.ofNat 13) := by simpa [isWsChar] using hw
  rw [heq]
  simp only [List.cons_append]
  have helems2 : parseElems fuel (c0 :: (ds ++ ']' :: r)) = .ok (a, r) := by
    rw [← List.cons_append, ← heq]
    exact helems
  simp [parseVal, skipWs, isWsChar, hw2, hne, arrOf, helems2]

theorem pv_obj_cons (fuel : Nat) (o : JObj) (k0 : String) (v0 : JValue)
    (tl0 : JObj) (ho : o = .cons k0 v0 tl0) (r : List Char)
    (hmem : parseMembers fuel (JObj.dumps o ++ '}' :: r) = .ok (o, r)) :
    parseVal (fuel + 1) ('{' :: (JObj.dumps o ++ '}' :: r)) = .ok (.obj o, r) := by
  have hhead : ∃ ds, JObj.dumps o = '"' :: ds := by
    subst ho
    cases tl0 with
    | nil => exact ⟨_, rfl⟩
    | cons k2 w tl => exact ⟨_, rfl⟩
  obtain ⟨ds, heq⟩ := hhead
  rw [heq]
  simp only [List.cons_append]
  have hmem2 : parseMembers fuel ('"' :: (ds ++ '}' :: r)) = .ok (o, r) := by
    rw [← List.cons_append, ← heq]
    exact hmem
  simp [parseVal, skipWs, isWsChar, objOf, hmem2]

theorem pe_single (fuel : Nat) (v : JValue) (r : List Char)
    (hv : parseVal fuel (JValue.dumps v ++ ']' :: r) = .ok (v, ']' :: r)) :
    parseElems (fuel + 1) (JValue.dumps v ++ ']' :: r) = .ok (.cons v .nil, r) := by
  simp [parseElems, hv, skipWs, isWsChar]

theorem pe_cons (g : Nat) (v : JValue) (tl : JArr) (r : List Char)
    (hv : parseVal g (JValue.dumps v ++ ',' :: (JArr.dumps tl ++ ']' :: r)) =
      .ok (v, ',' :: (JArr.dumps tl ++ ']' :: r)))
    (htl : parseElems g (JArr.dumps tl ++ ']' :: r) = .ok (tl, r)) :
    parseElems (g + 1) (JValue.dumps v ++ ',' :: (JArr.dumps tl ++ ']' :: r)) =
      .ok (.cons v tl, r) := by
  simp [parseElems, hv, skipWs, isWsChar, htl, consArr]

theorem po_single (fuel : Nat) (k : String) (v : JValue) (r : List Char)
    (hv : parseVal fuel (JValue.dumps v ++ '}' :: r) = .ok (v, '}' :: r)) :
    parseMembers (fuel + 1) ('"' :: (escStr k.data ++ '"' :: ':' ::
      (JValue.dumps v ++ '}' :: r))) = .ok (.cons k v .nil, r) := by
  have hk := parseStrBody_escStr k.data (':' :: (JValue.dumps v ++ '}' :: r))
  simp [parseMembers, skipWs, isWsChar, hk, hv, stringMk_data]

theorem po_cons (g : Nat) (k : String) (v : JValue) (tl : JObj) (r : List Char)
    (hv : parseVal g (JValue.dumps v ++ ',' :: (JObj.dumps tl ++ '}' :: r)) =
      .ok (v, ',' :: (JObj.dumps tl ++ '}' :: r)))
    (htl : parseMembers g (JObj.dumps tl ++ '}' :: r) = .ok (tl, r)) :
    parseMembers (g + 1) ('"' :: (escStr k.data ++ '"' :: ':' ::
      (JValue.dumps v ++ ',' :: (JObj.dumps tl ++ '}' :: r)))) =
      .ok (.cons k v tl, r) := by
  have hk := parseStrBody_escStr k.data
    (':' :: (JValue.dumps v ++ ',' :: (JObj.dumps tl ++ '}' :: r)))
  simp [parseMembers, skipWs, isWsChar, hk, hv, htl, consObj, stringMk_data]

theorem roundtripAux : ∀ N : Nat,
    (∀ v fuel r, jsize v ≤ fuel → jsize v ≤ N → DelimOk r →
      parseVal fuel (JValue.dumps v ++ r) = .ok (v, r)) ∧
    (∀ a fuel r, a ≠ JArr.nil → asize a ≤ fuel → asize a ≤ N →
      parseElems fuel (JArr.dumps a ++ ']' :: r) = .ok (a, r)) ∧
    (∀ o fuel r, o ≠ JObj.nil → osize o ≤ fuel → osize o ≤ N →
      parseMembers fuel (JObj.dumps o ++ '}' :: r) = .ok (o, r)) := by
  intro N
  induction N with
  | zero =>
    refine ⟨?_, ?_, ?_⟩
    · intro v fuel r hf hN hd
      exact absurd hN (by have := jsize_pos v; omega)
    · intro a fuel r hne hf hN
      cases a with
      | nil => exact absurd rfl hne
      | cons v tl =>
        have hun : asize (JArr.cons v tl) = 1 + jsize v + asize tl := rfl
        exact absurd hN (by omega)
    · intro o fuel r hne hf hN
      cases o with
      | nil => exact absurd rfl hne
      | cons k v tl =>
        have hun : osize (JObj.cons k v tl) = 1 + jsize v + osize tl := rfl
        exact absurd hN (by omega)
  | succ N ihN =>
    obtain ⟨ihV, ihA, ihO⟩ := ihN
    refine ⟨?_, ?_, ?_⟩
    · intro v fuel r hf hN hd
      cases v with
      | null =>
        obtain ⟨f, rfl⟩ : ∃ f, fuel = f + 1 :=
          ⟨fuel - 1, by have := jsize_pos JValue.null; omega⟩
        rw [show JValue.dumps .null = ['n', 'u', 'l', 'l'] from rfl]
        simp only [List.cons_append, List.nil_append]
        exact pv_null f r
      | bool b =>
        obtain ⟨f, rfl⟩ : ∃ f, fuel = f + 1 :=
          ⟨fuel - 1, by have := jsize_pos (JValue.bool b); omega⟩
        cases b
        · rw [show JValue.dumps (.bool false) = ['f', 'a', 'l', 's', 'e'] from rfl]
          simp only [List.cons_append, List.nil_append]
          exact pv_false f r
        · rw [show JValue.dumps (.bool true) = ['t', 'r', 'u', 'e'] from rfl]
          simp only [List.cons_append, List.nil_append]
          exact pv_true f r
      | int n =>
        obtain ⟨f, rfl⟩ : ∃ f, fuel = f + 1 :=
          ⟨fuel - 1, by have := jsize_pos (JValue.int n); omega⟩
        rw [show JValue.dumps (.int n) = intChars n from rfl]
        exact pv_int f n r hd
      | str s =>
        obtain ⟨f, rfl⟩ : ∃ f, fuel = f + 1 :=
          ⟨fuel - 1, by have := jsize_pos (JValue.str s); omega⟩
        rw [show JValue.dumps (.str s) = '"' :: escStr s.data ++ ['"'] from rfl]
        simp only [List.cons_append, List.append_assoc, List.singleton_append]
        exact pv_str f s r
      | arr a =>
        have hun : jsize (JValue.arr a) = 1 + asize a := rfl
        obtain ⟨f, rfl⟩ : ∃ f, fuel = f + 1 := ⟨fuel - 1, by omega⟩
        cases a with
        | nil =>
          rw [show JValue.dumps (.arr .nil) = ['[', ']'] from rfl]
          simp only [List.cons_append, List.nil_append]
          exact pv_arr_nil f r
        | cons v0 tl0 =>
          rw [show JValue.dumps (.arr (.cons v0 tl0)) =
            '[' :: JArr.dumps (.cons v0 tl0) ++ [']'] from rfl]
          simp only [List.cons_append, List.append_assoc, List.singleton_append]
          exact pv_arr_cons f _ v0 tl0 rfl r
            (ihA (JArr.cons v0 tl0) f r (by simp) (by omega) (by omega))
      | obj o =>
        have hun : jsize (JValue.obj o) = 1 + osize o := rfl
        obtain ⟨f, rfl⟩ : ∃ f, fuel = f + 1 := ⟨fuel - 1, by omega⟩
        cases o with
        | nil =>
          rw [show JValue.dumps (.obj .nil) = ['{', '}'] from rfl]
          simp only [List.cons_append, List.nil_append]
          exact pv_obj_nil f r
        | cons k0 v0 tl0 =>
          rw [show JValue.dumps (.obj (.cons k0 v0 tl0)) =
            '{' :: JObj.dumps (.cons k0 v0 tl0) ++ ['}'] from rfl]
          simp only [List.cons_append, List.append_assoc, List.singleton_append]
          exact pv_obj_cons f _ k0 v0 tl0 rfl r
            (ihO (JObj.cons k0 v0 tl0) f r (by simp) (by omega) (by omega))
    · intro a fuel r hne hf hN
      cases a with
      | nil => exact absurd rfl hne
      | cons v tl =>
        have hun : asize (JArr.cons v tl) = 1 + jsize v + asize tl := rfl
        have hjv := jsize_pos v
        obtain ⟨f, rfl⟩ : ∃ f, fuel = f + 1 := ⟨fuel - 1, by omega⟩
        cases tl with
        | nil =>
          have hunn : asize JArr.nil = 0 := rfl
          rw [show JArr.dumps (.cons v .nil) = JValue.dumps v from rfl]
          exact pe_single f v r
            (ihV v f (']' :: r) (by omega) (by omega) (by simp [DelimOk]))
        | cons w tl2 =>
          have hIn : asize (JArr.cons w tl2) = 1 + jsize w + asize tl2 := rfl
          have hjw := jsize_pos w
          rw [show JArr.dumps (.cons v (.cons w tl2)) =
            JValue.dumps v ++ ',' :: JArr.dumps (.cons w tl2) from rfl]
          simp only [List.append_assoc, List.cons_append]
          exact pe_cons f v (JArr.cons w tl2) r
            (ihV v f _ (by omega) (by omega) (by simp [DelimOk]))
            (ihA (JArr.cons w tl2) f r (by simp) (by omega) (by omega))
    · intro o fuel r hne hf hN
      cases o with
      | nil => exact absurd rfl hne
      | cons k v tl =>
        have hun : osize (JObj.cons k v tl) = 1 + jsize v + osize tl := rfl
        have hjv := jsize_pos v
        obtain ⟨f, rfl⟩ : ∃ f, fuel = f + 1 := ⟨fuel - 1, by omega⟩
        cases tl with
        | nil =>
          have hunn : osize JObj.nil = 0 := rfl
          rw [show JObj.dumps (.cons k v .nil) =
            '"' :: escStr k.data ++ '"' :: ':' :: JValue.dumps v from rfl]
          simp only [List.cons_append, List.append_assoc]
          exact po_single f k v r
            (ihV v f ('}' :: r) (by omega) (by omega) (by simp [DelimOk]))
        | cons k2 w tl2 =>
          have hIn : osize (JObj.cons k2 w tl2) = 1 + jsize w + osize tl2 := rfl
          have hjw := jsize_pos w
          rw [show JObj.dumps (.cons k v (.cons k2 w tl2)) =
            '"' :: escStr k.data ++ '"' :: ':' :: JValue.dumps v ++
              ',' :: JObj.dumps (.cons k2 w tl2) from rfl]
          simp only [List.cons_append, List.append_assoc]
          exact po_cons f k v (JObj.cons k2 w tl2) r
            (ihV v f _ (by omega) (by omega) (by simp [DelimOk]))
            (ihO (JObj.cons k2 w tl2) f r (by simp) (by omega) (by omega))

/-- `parseVal` inverts `dumps` whenever fuel covers the value's size and the
remainder starts with a delimiter. -/
theorem parseVal_dumps (v : JValue) (fuel : Nat) (r : List Char)
    (hf : jsize v ≤ fuel) (hd : DelimOk r) :
    parseVal fuel (JValue.dumps v ++ r) = .ok (v, r) :=
  (roundtripAux (jsize v)).1 v fuel r hf le_rfl hd

theorem sizeLenAux : ∀ N : Nat,
    (∀ v, jsize v ≤ N → jsize v ≤ (JValue.dumps v).length) ∧
    (∀ a, asize a ≤ N → asize a ≤ (JArr.dumps a).length + 1) ∧
    (∀ o, osize o ≤ N → osize o ≤ (JObj.dumps o).length + 1) := by
  intro N
  induction N with
  | zero =>
    refine ⟨?_, ?_, ?_⟩
    · intro v hN
      exact absurd hN (by have := jsize_pos v; omega)
    · intro a hN
      cases a with
      | nil => simp [asize]
      | cons v tl =>
        have hun : asize (JArr.cons v tl) = 1 + jsize v + asize tl := rfl
        exact absurd hN (by omega)
    · intro o hN
      cases o with
      | nil => simp [osize]
      | cons k v tl =>
        have hun : osize (JObj.cons k v tl) = 1 + jsize v + osize tl := rfl
        exact absurd hN (by omega)
  | succ N ihN =>
    obtain ⟨ihV, ihA, ihO⟩ := ihN
    refine ⟨?_, ?_, ?_⟩
    · intro v hN
      cases v with
      | null => simp [jsize, JValue.dumps]
      | bool b => cases b <;> simp [jsize, JValue.dumps]
      | int n =>
        rw [show JValue.dumps (.int n) = intChars n from rfl]
        have hlen : 1 ≤ (intChars n).length := by
          rw [intChars]
          by_cases hn : n < 0
          · rw [if_pos hn]
            simp
          · rw [if_neg hn]
            have := natChars_ne_nil n.toNat
            cases heq : natChars n.toNat with
            | nil => exact absurd heq this
            | cons c ds => simp
        have : jsize (JValue.int n) = 1 := rfl
        omega
      | str s =>
        have : jsize (JValue.str s) = 1 := rfl
        rw [show JValue.dumps (.str s) = '"' :: escStr s.data ++ ['"'] from rfl]
        simp
        omega
      | arr a =>
        have hun : jsize (JValue.arr a) = 1 + asize a := rfl
        have ha := ihA a (by omega)
        rw [show JValue.dumps (.arr a) = '[' :: JArr.dumps a ++ [']'] from rfl]
        simp
        omega
      | obj o =>
        have hun : jsize (JValue.obj o) = 1 + osize o := rfl
        have ho := ihO o (by omega)
        rw [show JValue.dumps (.obj o) = '{' :: JObj.dumps o ++ ['}'] from rfl]
        simp
        omega
    · intro a hN
      cases a with
      | nil => simp [asize]
      | cons v tl =>
        have hun : asize (JArr.cons v tl) = 1 + jsize v + asize tl := rfl
        have hjv := jsize_pos v
        have hv := ihV v (by omega)
        cases tl with
        | nil =>
          have hunn : asize JArr.nil = 0 := rfl
          rw [show JArr.dumps (.cons v .nil) = JValue.dumps v from rfl]
          omega
        | cons w tl2 =>
          have hIn : asize (JArr.cons w tl2) = 1 + jsize w + asize tl2 := rfl
          have hjw := jsize_pos w
          have htl := ihA (JArr.cons w tl2) (by omega)
          rw [show JArr.dumps (.cons v (.cons w tl2)) =
            JValue.dumps v ++ ',' :: JArr.dumps (.cons w tl2) from rfl]
          simp
          omega
    · intro o hN
      cases o with
      | nil => simp [osize]
      | cons k v tl =>
        have hun : osize (JObj.cons k v tl) = 1 + jsize v + osize tl := rfl
        have hjv := jsize_pos v
        have hv := ihV v (by omega)
        cases tl with
        | nil =>
          have hunn : osize JObj.nil = 0 := rfl
          rw [show JObj.dumps (.cons k v .nil) =
            '"' :: escStr k.data ++ '"' :: ':' :: JValue.dumps v from rfl]
          simp
          omega
        | cons k2 w tl2 =>
          have hIn : osize (JObj.cons k2 w tl2) = 1 + jsize w + osize tl2 := rfl
          have hjw := jsize_pos w
          have htl := ihO (JObj.cons k2 w tl2) (by omega)
          rw [show JObj.dumps (.cons k v (.cons k2 w tl2)) =
            '"' :: escStr k.data ++ '"' :: ':' :: JValue.dumps v ++
              ',' :: JObj.dumps (.cons k2 w tl2) from rfl]
          simp
          omega

theorem jsize_le_dumps (v : JValue) : jsize v ≤ (JValue.dumps v).length :=
  (sizeLenAux (jsize v)).1 v le_rfl

/-- The JSON codec round-trips: `loads (dumps v) = v`. -/
theorem loads_dumps (v : JValue) : loads (JValue.dumps v) = .ok v := by
  have h := parseVal_dumps v ((JValue.dumps v).length + 1) []
    (by have := jsize_le_dumps v; omega) (by simp [DelimOk])
  rw [List.append_nil] at h
  simp [loads, h, skipWs]

/-! ## Supporting lemmas: base64url decode inverts encode -/

theorem a2b_step_enc (v : Nat) (hv : v < 64) (rest : List Char)
    (q lc lb : Nat) (acc : List Nat) :
    a2b (encChar v :: rest) q lc lb acc =
      (if 8 ≤ lb + 6 then
        a2b rest ((q + 1) % 4) ((lc * 64 + v) % 2 ^ (lb + 6 - 8)) (lb + 6 - 8)
          (acc ++ [(lc * 64 + v) / 2 ^ (lb + 6 - 8)])
      else a2b rest ((q + 1) % 4) (lc * 64 + v) (lb + 6) acc) := by
  have hne := encChar_ne_pad v
  have hd := decChar_encChar v hv
  simp [a2b, hne, hd]

theorem a2b_enc0 (v : Nat) (hv : v < 64) (rest : List Char) (acc : List Nat) :
    a2b (encChar v :: rest) 0 0 0 acc = a2b rest 1 v 6 acc := by
  rw [a2b_step_enc v hv, if_neg (by omega)]
  norm_num

theorem a2b_enc6 (v lc : Nat) (hv : v < 64) (rest : List Char) (acc : List Nat) :
    a2b (encChar v :: rest) 1 lc 6 acc =
      a2b rest 2 ((lc * 64 + v) % 16) 4 (acc ++ [(lc * 64 + v) / 16]) := by
  rw [a2b_step_enc v hv, if_pos (by omega)]
  norm_num

theorem a2b_enc4 (v lc : Nat) (hv : v < 64) (rest : List Char) (acc : List Nat) :
    a2b (encChar v :: rest) 2 lc 4 acc =
      a2b rest 3 ((lc * 64 + v) % 4) 2 (acc ++ [(lc * 64 + v) / 4]) := by
  rw [a2b_step_enc v hv, if_pos (by omega)]
  norm_num

theorem a2b_enc2 (v lc : Nat) (hv : v < 64) (rest : List Char) (acc : List Nat) :
    a2b (encChar v :: rest) 3 lc 2 acc =
      a2b rest 0 0 0 (acc ++ [lc * 64 + v]) := by
  rw [a2b_step_enc v hv, if_pos (by omega)]
  simp [Nat.mod_one]

theorem a2b_pad_skip (q : Nat) (hq : q < 2) (t : List Char) (lc lb : Nat)
    (acc : List Nat) : a2b ('=' :: t) q lc lb acc = a2b t q lc lb acc := by
  simp [a2b, hq]

theorem a2b_pad_break2 (t : List Char) (lc lb : Nat) (acc : List Nat)
    (hfv : findValid t = some '=') : a2b ('=' :: t) 2 lc lb acc = .ok acc := by
  simp [a2b, hfv]

theorem a2b_pad_break3 (t : List Char) (lc lb : Nat) (acc : List Nat) :
    a2b ('=' :: t) 3 lc lb acc = .ok acc := by
  simp [a2b]

theorem a2b_nil_ok (q lc : Nat) (acc : List Nat) : a2b [] q lc 0 acc = .ok acc := by
  simp [a2b]

theorem a2b_quad (b1 b2 b3 : Nat) (h1 : b1 < 256) (h2 : b2 < 256)
    (h3 : b3 < 256) (rest : List Char) (acc : List Nat) :
    a2b (encChar (b1 / 4) :: encChar (b1 % 4 * 16 + b2 / 16) ::
      encChar (b2 % 16 * 4 + b3 / 64) :: encChar (b3 % 64) :: rest) 0 0 0 acc =
      a2b rest 0 0 0 (acc ++ [b1, b2, b3]) := by
  rw [a2b_enc0 _ (by omega), a2b_enc6 _ _ (by omega)]
  have hx1 : (b1 / 4 * 64 + (b1 % 4 * 16 + b2 / 16)) / 16 = b1 := by omega
  have hlc2 : (b1 / 4 * 64 + (b1 % 4 * 16 + b2 / 16)) % 16 = b2 / 16 := by omega
  rw [hx1, hlc2, a2b_enc4 _ _ (by omega)]
  have hx2 : (b2 / 16 * 64 + (b2 % 16 * 4 + b3 / 64)) / 4 = b2 := by omega
  have hlc3 : (b2 / 16 * 64 + (b2 % 16 * 4 + b3 / 64)) % 4 = b3 / 64 := by omega
  rw [hx2, hlc3, a2b_enc2 _ _ (by omega)]
  have hx3 : b3 / 64 * 64 + b3 % 64 = b3 := by omega
  rw [hx3]
  simp

theorem rstrip_tail1 (c1 c2 : Char) (h2 : c2 ≠ '=') :
    rstripEq [c1, c2, '=', '='] = [c1, c2] := by
  simp [rstripEq, List.dropWhile_cons, h2]

theorem rstrip_tail2 (c1 c2 c3 : Char) (h3 : c3 ≠ '=') :
    rstripEq [c1, c2, c3, '='] = [c1, c2, c3] := by
  simp [rstripEq, List.dropWhile_cons, h3]

theorem a2b_enc_aux : ∀ (bs : List Nat), (∀ b ∈ bs, b < 256) →
    ∀ acc, a2b (rstripEq (b64encodePadded bs) ++
      List.replicate (padCount (rstripEq (b64encodePadded bs))) '=') 0 0 0 acc =
      .ok (acc ++ bs)
  | [], _, acc => by
    rw [show b64encodePadded [] = [] from rfl, rstripEq_nil]
    rw [show padCount ([] : List Char) = 4 from rfl]
    simp only [List.nil_append, List.replicate]
    rw [a2b_pad_skip 0 (by omega), a2b_pad_skip 0 (by omega),
      a2b_pad_skip 0 (by omega), a2b_pad_skip 0 (by omega), a2b_nil_ok]
    simp
  | [b1], h, acc => by
    have h1 : b1 < 256 := h b1 (by simp)
    rw [show b64encodePadded [b1] =
      [encChar (b1 / 4), encChar (b1 % 4 * 16), '=', '='] from rfl]
    rw [rstrip_tail1 _ _ (encChar_ne_pad _)]
    rw [show padCount [encChar (b1 / 4), encChar (b1 % 4 * 16)] = 2 from by
      simp [padCount]]
    simp only [List.cons_append, List.nil_append, List.replicate]
    rw [a2b_enc0 _ (by omega), a2b_enc6 _ _ (by omega)]
    have hx1 : (b1 / 4 * 64 + b1 % 4 * 16) / 16 = b1 := by omega
    rw [hx1, a2b_pad_break2]
    simp [findValid]
  | [b1, b2], h, acc => by
    have h1 : b1 < 256 := h b1 (by simp)
    have h2 : b2 < 256 := h b2 (by simp)
    rw [show b64encodePadded [b1, b2] =
      [encChar (b1 / 4), encChar (b1 % 4 * 16 + b2 / 16),
       encChar (b2 % 16 * 4), '='] from rfl]
    rw [rstrip_tail2 _ _ _ (encChar_ne_pad _)]
    rw [show padCount [encChar (b1 / 4), encChar (b1 % 4 * 16 + b2 / 16),
      encChar (b2 % 16 * 4)] = 1 from by simp [padCount]]
    simp only [List.cons_append, List.nil_append, List.replicate]
    rw [a2b_enc0 _ (by omega), a2b_enc6 _ _ (by omega)]
    have hx1 : (b1 / 4 * 64 + (b1 % 4 * 16 + b2 / 16)) / 16 = b1 := by omega
    have hlc2 : (b1 / 4 * 64 + (b1 % 4 * 16 + b2 / 16)) % 16 = b2 / 16 := by
      omega
    rw [hx1, hlc2, a2b_enc4 _ _ (by omega)]
    have hx2 : (b2 / 16 * 64 + b2 % 16 * 4) / 4 = b2 := by omega
    rw [hx2, a2b_pad_break3]
    simp
  | b1 :: b2 :: b3 :: rest, h, acc => by
    have h1 : b1 < 256 := h b1 (by simp)
    have h2 : b2 < 256 := h b2 (by simp)
    have h3 : b3 < 256 := h b3 (by simp)
    have heq : rstripEq (b64encodePadded (b1 :: b2 :: b3 :: rest)) =
        encChar (b1 / 4) :: encChar (b1 % 4 * 16 + b2 / 16) ::
        encChar (b2 % 16 * 4 + b3 / 64) :: encChar (b3 % 64) ::
        rstripEq (b64encodePadded rest) := by
      rw [show b64encodePadded (b1 :: b2 :: b3 :: rest) =
        encChar (b1 / 4) :: encChar (b1 % 4 * 16 + b2 / 16) ::
        encChar (b2 % 16 * 4 + b3 / 64) :: encChar (b3 % 64) ::
        b64encodePadded rest from rfl]
      exact rstripEq_quad _ _ _ _ _ (encChar_ne_pad _)
    rw [heq]
    have hpad : padCount (encChar (b1 / 4) :: encChar (b1 % 4 * 16 + b2 / 16) ::
        encChar (b2 % 16 * 4 + b3 / 64) :: encChar (b3 % 64) ::
        rstripEq (b64encodePadded rest)) =
        padCount (rstripEq (b64encodePadded rest)) := by
      simp only [padCount, List.length_cons]
      omega
    rw [hpad]
    simp only [List.cons_append]
    rw [a2b_quad b1 b2 b3 h1 h2 h3]
    rw [a2b_enc_aux rest (fun b hb => h b (by simp [hb])) (acc ++ [b1, b2, b3])]
    simp

theorem encChar_ascii (v : Nat) : (encChar v).toNat ≤ 127 := by
  by_cases h : v < 64
  · revert h
    revert v
    decide
  · have hlen :
        ("ABCDEFGHIJKLMNOPQRSTUVWXYZabcdefghijklmnopqrstuvwxyz0123456789-_".data).length ≤ v := by
      have : ("ABCDEFGHIJKLMNOPQRSTUVWXYZabcdefghijklmnopqrstuvwxyz0123456789-_".data).length = 64 := by decide
      omega
    unfold encChar
    rw [List.getD_eq_default _ _ hlen]
    decide

theorem b64encodePadded_mem : ∀ (bs : List Nat) (c : Char),
    c ∈ b64encodePadded bs → (∃ v, c = encChar v) ∨ c = '='
  | [], c, hc => by simp [b64encodePadded] at hc
  | [b1], c, hc => by
    rw [show b64encodePadded [b1] =
      [encChar (b1 / 4), encChar (b1 % 4 * 16), '=', '='] from rfl] at hc
    simp at hc
    rcases hc with rfl | rfl | rfl
    · exact Or.inl ⟨_, rfl⟩
    · exact Or.inl ⟨_, rfl⟩
    · exact Or.inr rfl
  | [b1, b2], c, hc => by
    rw [show b64encodePadded [b1, b2] =
      [encChar (b1 / 4), encChar (b1 % 4 * 16 + b2 / 16),
       encChar (b2 % 16 * 4), '='] from rfl] at hc
    simp at hc
    rcases hc with rfl | rfl | rfl | rfl
    · exact Or.inl ⟨_, rfl⟩
    · exact Or.inl ⟨_, rfl⟩
    · exact Or.inl ⟨_, rfl⟩
    · exact Or.inr rfl
  | b1 :: b2 :: b3 :: rest, c, hc => by
    rw [show b64encodePadded (b1 :: b2 :: b3 :: rest) =
      encChar (b1 / 4) :: encChar (b1 % 4 * 16 + b2 / 16) ::
      encChar (b2 % 16 * 4 + b3 / 64) :: encChar (b3 % 64) ::
      b64encodePadded rest from rfl] at hc
    simp only [List.mem_cons] at hc
    rcases hc with rfl | rfl | rfl | rfl | hc
    · exact Or.inl ⟨_, rfl⟩
    · exact Or.inl ⟨_, rfl⟩
    · exact Or.inl ⟨_, rfl⟩
    · exact Or.inl ⟨_, rfl⟩
    · exact b64encodePadded_mem rest c hc

theorem rstripEq_mem (l : List Char) (c : Char) (hc : c ∈ rstripEq l) :
    c ∈ l := by
  unfold rstripEq at hc
  rw [List.mem_reverse] at hc
  have hsub := List.dropWhile_sublist (l := l.reverse)
    (p := fun c => c = '=')
  have := hsub.mem hc
  rwa [List.mem_reverse] at this

theorem urlsafe_encode_mem (bs : List Nat) (c : Char)
    (hc : c ∈ _urlsafe_b64encode bs) : (∃ v, c = encChar v) ∨ c = '=' :=
  b64encodePadded_mem bs c (rstripEq_mem _ c hc)

theorem urlsafe_encode_no_dot (bs : List Nat) : '.' ∉ _urlsafe_b64encode bs := by
  intro hmem
  rcases urlsafe_encode_mem bs '.' hmem with ⟨v, hv⟩ | hv
  · exact encChar_ne_dot v hv.symm
  · exact absurd hv (by decide)

theorem urlsafe_encode_ascii (bs : List Nat) :
    (_urlsafe_b64encode bs).any (fun c => 127 < c.toNat) = false := by
  rw [List.any_eq_false]
  intro c hc
  rcases urlsafe_encode_mem bs c hc with ⟨v, rfl⟩ | rfl
  · have := encChar_ascii v
    simp
    omega
  · decide

/-- The base64url helpers round-trip on byte strings. -/
theorem urlsafe_b64_roundtrip (bs : List Nat) (h : ∀ b ∈ bs, b < 256) :
    _urlsafe_b64decode (_urlsafe_b64encode bs) = .ok bs := by
  unfold _urlsafe_b64decode
  rw [urlsafe_encode_ascii bs]
  simp only [Bool.false_eq_true, if_false]
  have := a2b_enc_aux bs h []
  unfold _urlsafe_b64encode at this ⊢
  rw [this]
  simp

/-! ## Supporting lemmas: `dumps` output is pure ASCII (`ensure_ascii`) -/

theorem hexDigitChar_ascii : ∀ n < 16, (hexDigitChar n).toNat < 128 := by decide

theorem digitChar_ascii : ∀ k < 10, (Char.ofNat (48 + k)).toNat < 128 := by decide

theorem hex4_mem (n : Nat) (hn : n < 65536) (d : Char) (hd : d ∈ hex4 n) :
    d.toNat < 128 := by
  rw [hex4] at hd
  simp only [List.mem_cons, List.not_mem_nil, or_false] at hd
  rcases hd with rfl | rfl | rfl | rfl
  · exact hexDigitChar_ascii _ (by omega)
  · exact hexDigitChar_ascii _ (by omega)
  · exact hexDigitChar_ascii _ (by omega)
  · exact hexDigitChar_ascii _ (by omega)

set_option maxRecDepth 2000 in
theorem escapeChar_ascii (c : Char) : ∀ d ∈ escapeChar c, d.toNat < 128 := by
  intro d hd
  by_cases h1 : c = '"'
  · subst h1
    rw [show escapeChar '"' = ['\\', '"'] from rfl] at hd
    revert d hd
    decide
  by_cases h2 : c = '\\'
  · subst h2
    rw [show escapeChar '\\' = ['\\', '\\'] from rfl] at hd
    revert d hd
    decide
  by_cases h3 : c = Char.ofNat 8
  · subst h3
    rw [show escapeChar (Char.ofNat 8) = ['\\', 'b'] from rfl] at hd
    revert d hd
    decide
  by_cases h4 : c = Char.ofNat 9
  · subst h4
    rw [show escapeChar (Char.ofNat 9) = ['\\', 't'] from rfl] at hd
    revert d hd
    decide
  by_cases h5 : c = Char.ofNat 10
  · subst h5
    rw [show escapeChar (Char.ofNat 10) = ['\\', 'n'] from rfl] at hd
    revert d hd
    decide
  by_cases h6 : c = Char.ofNat 12
  · subst h6
    rw [show escapeChar (Char.ofNat 12) = ['\\', 'f'] from rfl] at hd
    revert d hd
    decide
  by_cases h7 : c = Char.ofNat 13
  · subst h7
    rw [show escapeChar (Char.ofNat 13) = ['\\', 'r'] from rfl] at hd
    revert d hd
    decide
  by_cases h8 : c.toNat < 32
  · have hesc : escapeChar c = '\\' :: 'u' :: hex4 c.toNat := by
      rw [escapeChar, if_neg h1, if_neg h2, if_neg h3, if_neg h4, if_neg h5,
        if_neg h6, if_neg h7, if_pos h8]
    rw [hesc] at hd
    rw [List.mem_cons, List.mem_cons] at hd
    rcases hd with rfl | rfl | hd
    · decide
    · decide
    · exact hex4_mem _ (by omega) _ hd
  by_cases h9 : c.toNat ≤ 126
  · have hesc : escapeChar c = [c] := by
      rw [escapeChar, if_neg h1, if_neg h2, if_neg h3, if_neg h4, if_neg h5,
        if_neg h6, if_neg h7, if_neg h8, if_pos h9]
    rw [hesc] at hd
    simp only [List.mem_singleton] at hd
    subst hd
    omega
  by_cases h10 : c.toNat < 65536
  · have hesc : escapeChar c = '\\' :: 'u' :: hex4 c.toNat := by
      rw [escapeChar, if_neg h1, if_neg h2, if_neg h3, if_neg h4, if_neg h5,
        if_neg h6, if_neg h7, if_neg h8, if_neg h9, if_pos h10]
    rw [hesc] at hd
    rw [List.mem_cons, List.mem_cons] at hd
    rcases hd with rfl | rfl | hd
    · decide
    · decide
    · exact hex4_mem _ (by omega) _ hd
  · have hlt := char_toNat_lt c
    have hesc : escapeChar c = '\\' :: 'u' ::
        hex4 (55296 + (c.toNat - 65536) / 1024) ++
        ('\\' :: 'u' :: hex4 (56320 + (c.toNat - 65536) % 1024)) := by
      rw [escapeChar, if_neg h1, if_neg h2, if_neg h3, if_neg h4, if_neg h5,
        if_neg h6, if_neg h7, if_neg h8, if_neg h9, if_neg h10]
    rw [hesc] at hd
    rw [List.mem_append] at hd
    rcases hd with hd | hd
    · rw [List.mem_cons, List.mem_cons] at hd
      rcases hd with rfl | rfl | hd
      · decide
      · decide
      · exact hex4_mem _ (by omega) _ hd
    · rw [List.mem_cons, List.mem_cons] at hd
      rcases hd with rfl | rfl | hd
      · decide
      · decide
      · exact hex4_mem _ (by omega) _ hd

theorem escStr_ascii (cs : List Char) : ∀ d ∈ escStr cs, d.toNat < 128 := by
  induction cs with
  | nil => intro d hd; simp [escStr] at hd
  | cons c cs ih =>
    intro d hd
    rw [escStr] at hd
    rw [List.mem_append] at hd
    rcases hd with hd | hd
    · exact escapeChar_ascii c d hd
    · exact ih d hd

theorem natChars_ascii (n : Nat) : ∀ c ∈ natChars n, c.toNat < 128 := by
  induction n using Nat.strong_induction_on with
  | _ n ih =>
    intro c hc
    unfold natChars at hc
    split at hc
    · simp only [List.mem_singleton] at hc
      subst hc
      exact digitChar_ascii n (by omega)
    · rw [List.mem_append, List.mem_singleton] at hc
      rcases hc with hc | rfl
      · exact ih (n / 10) (Nat.div_lt_self (by omega) (by omega)) c hc
      · exact digitChar_ascii (n % 10) (Nat.mod_lt _ (by omega))

theorem intChars_ascii (n : Int) : ∀ c ∈ intChars n, c.toNat < 128 := by
  intro c hc
  rw [intChars] at hc
  split at hc
  · rw [List.mem_cons] at hc
    rcases hc with rfl | hc
    · decide
    · exact natChars_ascii _ c hc
  · exact natChars_ascii _ c hc

theorem dumpsAsciiAux : ∀ N : Nat,
    (∀ v, jsize v ≤ N → ∀ c ∈ JValue.dumps v, c.toNat < 128) ∧
    (∀ a, asize a ≤ N → ∀ c ∈ JArr.dumps a, c.toNat < 128) ∧
    (∀ o, osize o ≤ N → ∀ c ∈ JObj.dumps o, c.toNat < 128) := by
  intro N
  induction N with
  | zero =>
    refine ⟨?_, ?_, ?_⟩
    · intro v hN
      exact absurd hN (by have := jsize_pos v; omega)
    · intro a hN c hc
      cases a with
      | nil => rw [show JArr.dumps .nil = [] from rfl] at hc; simp at hc
      | cons v tl =>
        have hun : asize (JArr.cons v tl) = 1 + jsize v + asize tl := rfl
        exact absurd hN (by omega)
    · intro o hN c hc
      cases o with
      | nil => rw [show JObj.dumps .nil = [] from rfl] at hc; simp at hc
      | cons k v tl =>
        have hun : osize (JObj.cons k v tl) = 1 + jsize v + osize tl := rfl
        exact absurd hN (by omega)
  | succ N ihN =>
    obtain ⟨ihV, ihA, ihO⟩ := ihN
    refine ⟨?_, ?_, ?_⟩
    · intro v hN c hc
      cases v with
      | null =>
        rw [show JValue.dumps .null = ['n', 'u', 'l', 'l'] from rfl] at hc
        exact (by decide : ∀ c ∈ (['n', 'u', 'l', 'l'] : List Char),
          c.toNat < 128) c hc
      | bool b =>
        cases b
        · rw [show JValue.dumps (.bool false) = ['f', 'a', 'l', 's', 'e'] from
            rfl] at hc
          exact (by decide : ∀ c ∈ (['f', 'a', 'l', 's', 'e'] : List Char),
            c.toNat < 128) c hc
        · rw [show JValue.dumps (.bool true) = ['t', 'r', 'u', 'e'] from rfl] at hc
          exact (by decide : ∀ c ∈ (['t', 'r', 'u', 'e'] : List Char),
            c.toNat < 128) c hc
      | int n =>
        rw [show JValue.dumps (.int n) = intChars n from rfl] at hc
        exact intChars_ascii n c hc
      | str s =>
        rw [show JValue.dumps (.str s) = '"' :: escStr s.data ++ ['"'] from
          rfl] at hc
        rw [List.mem_append, List.mem_cons, List.mem_singleton] at hc
        rcases hc with (rfl | hc) | rfl
        · decide
        · exact escStr_ascii _ c hc
        · decide
      | arr a =>
        have hun : jsize (JValue.arr a) = 1 + asize a := rfl
        rw [show JValue.dumps (.arr a) = '[' :: JArr.dumps a ++ [']'] from
          rfl] at hc
        rw [List.mem_append, List.mem_cons, List.mem_singleton] at hc
        rcases hc with (rfl | hc) | rfl
        · decide
        · exact ihA a (by omega) c hc
        · decide
      | obj o =>
        have hun : jsize (JValue.obj o) = 1 + osize o := rfl
        rw [show JValue.dumps (.obj o) = '{' :: JObj.dumps o ++ ['}'] from
          rfl] at hc
        rw [List.mem_append, List.mem_cons, List.mem_singleton] at hc
        rcases hc with (rfl | hc) | rfl
        · decide
        · exact ihO o (by omega) c hc
        · decide
    · intro a hN c hc
      cases a with
      | nil => rw [show JArr.dumps .nil = [] from rfl] at hc; simp at hc
      | cons v tl =>
        have hun : asize (JArr.cons v tl) = 1 + jsize v + asize tl := rfl
        have hjv := jsize_pos v
        cases tl with
        | nil =>
          rw [show JArr.dumps (.cons v .nil) = JValue.dumps v from rfl] at hc
          exact ihV v (by omega) c hc
        | cons w tl2 =>
          have hIn : asize (JArr.cons w tl2) = 1 + jsize w + asize tl2 := rfl
          have hjw := jsize_pos w
          rw [show JArr.dumps (.cons v (.cons w tl2)) =
            JValue.dumps v ++ ',' :: JArr.dumps (.cons w tl2) from rfl] at hc
          rw [List.mem_append, List.mem_cons] at hc
          rcases hc with hc | rfl | hc
          · exact ihV v (by omega) c hc
          · decide
          · exact ihA (JArr.cons w tl2) (by omega) c hc
    · intro o hN c hc
      cases o with
      | nil => rw [show JObj.dumps .nil = [] from rfl] at hc; simp at hc
      | cons k v tl =>
        have hun : osize (JObj.cons k v tl) = 1 + jsize v + osize tl := rfl
        have hjv := jsize_pos v
        cases tl with
        | nil =>
          rw [show JObj.dumps (.cons k v .nil) =
            '"' :: escStr k.data ++ '"' :: ':' :: JValue.dumps v from rfl] at hc
          rw [List.mem_append] at hc
          rcases hc with hc | hc
          · rw [List.mem_cons] at hc
            rcases hc with rfl | hc
            · decide
            · exact escStr_ascii _ c hc
          · rw [List.mem_cons, List.mem_cons] at hc
            rcases hc with rfl | rfl | hc
            · decide
            · decide
            · exact ihV v (by omega) c hc
        | cons k2 w tl2 =>
          have hIn : osize (JObj.cons k2 w tl2) = 1 + jsize w + osize tl2 := rfl
          have hjw := jsize_pos w
          rw [show JObj.dumps (.cons k v (.cons k2 w tl2)) =
            '"' :: escStr k.data ++ '"' :: ':' :: JValue.dumps v ++
              ',' :: JObj.dumps (.cons k2 w tl2) from rfl] at hc
          rw [List.mem_append] at hc
          rcases hc with hc | hc
          · rw [List.mem_append] at hc
            rcases hc with hc | hc
            · rw [List.mem_cons] at hc
              rcases hc with rfl | hc
              · decide
              · exact escStr_ascii _ c hc
            · rw [List.mem_cons, List.mem_cons] at hc
              rcases hc with rfl | rfl | hc
              · decide
              · decide
              · exact ihV v (by omega) c hc
          · rw [List.mem_cons] at hc
            rcases hc with rfl | hc
            · decide
            · exact ihO (JObj.cons k2 w tl2) (by omega) c hc

/-- Every character `simplejson.dumps` emits is ASCII (`ensure_ascii=True`). -/
theorem dumps_ascii (v : JValue) : ∀ c ∈ JValue.dumps v, c.toNat < 128 :=
  (dumpsAsciiAux (jsize v)).1 v le_rfl

theorem strBytes_lt (l : List Char) (h : ∀ c ∈ l, c.toNat < 128) :
    ∀ b ∈ strBytes l, b < 256 := by
  intro b hb
  rw [strBytes, List.mem_map] at hb
  obtain ⟨c, hc, rfl⟩ := hb
  have := h c hc
  omega

theorem strBytes_chars (l : List Char) :
    (strBytes l).map Char.ofNat = l := by
  rw [strBytes, List.map_map]
  have : (Char.ofNat ∘ Char.toNat) = id := by
    funext c
    exact Char.ofNat_toNat c
  rw [this, List.map_id]

/-! ## Supporting lemmas: staging `verify_signed_jwt_with_certs` -/

theorem verify_stages (pemVerify : String → List Nat → List Nat → Bool)
    (jwt : List Char) (certs : List (String × String))
    (audience : Option String) (now : Int) (s0 s1 s2 : List Char)
    (sig body : List Nat) (parsed : JValue)
    (hsplit : splitOnDot jwt = [s0, s1, s2])
    (hsig : _urlsafe_b64decode s2 = .ok sig)
    (hbody : _urlsafe_b64decode s1 = .ok body)
    (hparse : loadsBytes body = .ok parsed) :
    verify_signed_jwt_with_certs pemVerify jwt certs audience now =
      if checkSig pemVerify certs (strBytes (s0 ++ '.' :: s1)) sig then
        claimChecks audience now parsed
      else .error .invalidSignature := by
  simp [verify_signed_jwt_with_certs, hsplit, hsig, hbody, hparse]

theorem verify_wrongSegments (pemVerify : String → List Nat → List Nat → Bool)
    (jwt : List Char) (certs : List (String × String))
    (audience : Option String) (now : Int)
    (h : (splitOnDot jwt).length ≠ 3) :
    verify_signed_jwt_with_certs pemVerify jwt certs audience now =
      .error .wrongSegments := by
  match hsp : splitOnDot jwt with
  | [] => simp [verify_signed_jwt_with_certs, hsp]
  | [a] => simp [verify_signed_jwt_with_certs, hsp]
  | [a, b] => simp [verify_signed_jwt_with_certs, hsp]
  | [a, b, c] => rw [hsp] at h; simp at h
  | a :: b :: c :: d :: t => simp [verify_signed_jwt_with_certs, hsp]

theorem verify_sigDecodeErr (pemVerify : String → List Nat → List Nat → Bool)
    (jwt : List Char) (certs : List (String × String))
    (audience : Option String) (now : Int) (s0 s1 s2 : List Char)
    (e : B64Error) (hsplit : splitOnDot jwt = [s0, s1, s2])
    (hsig : _urlsafe_b64decode s2 = .error e) :
    verify_signed_jwt_with_certs pemVerify jwt certs audience now =
      .error (.b64Error e) := by
  simp [verify_signed_jwt_with_certs, hsplit, hsig]

theorem verify_bodyDecodeErr (pemVerify : String → List Nat → List Nat → Bool)
    (jwt : List Char) (certs : List (String × String))
    (audience : Option String) (now : Int) (s0 s1 s2 : List Char)
    (sig : List Nat) (e : B64Error) (hsplit : splitOnDot jwt = [s0, s1, s2])
    (hsig : _urlsafe_b64decode s2 = .ok sig)
    (hbody : _urlsafe_b64decode s1 = .error e) :
    verify_signed_jwt_with_certs pemVerify jwt certs audience now =
      .error (.b64Error e) := by
  simp [verify_signed_jwt_with_certs, hsplit, hsig, hbody]

theorem verify_parseErr (pemVerify : String → List Nat → List Nat → Bool)
    (jwt : List Char) (certs : List (String × String))
    (audience : Option String) (now : Int) (s0 s1 s2 : List Char)
    (sig body : List Nat) (e : ParseError)
    (hsplit : splitOnDot jwt = [s0, s1, s2])
    (hsig : _urlsafe_b64decode s2 = .ok sig)
    (hbody : _urlsafe_b64decode s1 = .ok body)
    (hparse : loadsBytes body = .error e) :
    verify_signed_jwt_with_certs pemVerify jwt certs audience now =
      .error .parseError := by
  simp [verify_signed_jwt_with_certs, hsplit, hsig, hbody, hparse]

/-- The loop over `certs.items()` returns success exactly when some
certificate verifies. -/
theorem checkSig_eq_any (pemVerify : String → List Nat → List Nat → Bool)
    (certs : List (String × String)) (msg sig : List Nat) :
    checkSig pemVerify certs msg sig =
      certs.any (fun kp => pemVerify kp.2 msg sig) := by
  induction certs with
  | nil => rfl
  | cons kp rest ih =>
    obtain ⟨k, pem⟩ := kp
    simp [checkSig, ih]

theorem checkSig_perm (pemVerify : String → List Nat → List Nat → Bool)
    (certs certs2 : List (String × String)) (msg sig : List Nat)
    (hperm : certs.Perm certs2) :
    checkSig pemVerify certs msg sig = checkSig pemVerify certs2 msg sig := by
  rw [checkSig_eq_any, checkSig_eq_any]
  rcases h1 : certs.any (fun kp => pemVerify kp.2 msg sig) with _ | _
  · rw [eq_comm, List.any_eq_false]
    rw [List.any_eq_false] at h1
    intro kp hkp
    exact h1 kp (hperm.mem_iff.mpr hkp)
  · rw [eq_comm, List.any_eq_true]
    rw [List.any_eq_true] at h1
    obtain ⟨kp, hmem, hv⟩ := h1
    exact ⟨kp, hperm.mem_iff.mp hmem, hv⟩

/-- The claim checks specialised to integer `iat`/`exp`: the pure temporal
policy of the source, in check order (lifetime cap first, then the skew
window, then the audience). -/
theorem claimChecks_int (kvs : JObj) (audience : Option String)
    (now iat exp : Int)
    (hIat : pyDictGet kvs "iat" = some (.int iat))
    (hExp : pyDictGet kvs "exp" = some (.int exp)) :
    claimChecks audience now (.obj kvs) =
      (if now + 86400 ≤ exp then .error .expTooFar
      else if now < iat - 300 then .error .tooEarly
      else if exp + 300 < now then .error .tooLate
      else
        match audience with
        | none => .ok (.obj kvs)
        | some aud =>
          match pyDictGet kvs "aud" with
          | none => .error .missingAud
          | some audV =>
            if jEqStr audV aud then .ok (.obj kvs)
            else .error .wrongRecipient) := by
  simp [claimChecks, hIat, hExp, pyToInt, pyGeInt]

theorem loadsBytes_dumps (v : JValue) :
    loadsBytes (strBytes (JValue.dumps v)) = .ok v := by
  unfold loadsBytes
  rw [if_pos]
  · rw [strBytes_chars]
    exact loads_dumps v
  · rw [List.all_eq_true]
    intro b hb
    rw [strBytes, List.mem_map] at hb
    obtain ⟨c, hc, rfl⟩ := hb
    have := dumps_ascii v c hc
    simpa using this

/-- A token of the shape `b64(h) . b64(p) . b64(s)` splits and decodes back to
its three byte strings inside `verify`. -/
theorem verify_three_b64 (pemVerify : String → List Nat → List Nat → Bool)
    (certs : List (String × String)) (audience : Option String) (now : Int)
    (hbytes pbytes sbytes : List Nat)
    (hp : ∀ b ∈ pbytes, b < 256) (hs : ∀ b ∈ sbytes, b < 256)
    (parsed : JValue) (hparse : loadsBytes pbytes = .ok parsed) :
    verify_signed_jwt_with_certs pemVerify
      (_urlsafe_b64encode hbytes ++ '.' ::
        (_urlsafe_b64encode pbytes ++ '.' :: _urlsafe_b64encode sbytes))
      certs audience now =
      (if checkSig pemVerify certs
          (strBytes (_urlsafe_b64encode hbytes ++ '.' ::
            _urlsafe_b64encode pbytes)) sbytes then
        claimChecks audience now parsed
      else .error .invalidSignature) := by
  apply verify_stages
  · exact splitOnDot_three _ _ _ (urlsafe_encode_no_dot _)
      (urlsafe_encode_no_dot _) (urlsafe_encode_no_dot _)
  · exact urlsafe_b64_roundtrip _ hs
  · exact urlsafe_b64_roundtrip _ hp
  · exact hparse

/-- End-to-end pipeline: verifying a token produced by `make_signed_jwt`
against a single certificate whose Verifier accepts the signer's signatures
reduces exactly to the claim checks on the original payload. -/
theorem verify_make_eq (pemVerify : String → List Nat → List Nat → Bool)
    (sign : List Nat → List Nat) (kid pem : String) (payload : JValue)
    (audience : Option String) (now : Int)
    (hSign : ∀ m, pemVerify pem m (sign m) = true)
    (hBytes : ∀ m b, b ∈ sign m → b < 256) :
    verify_signed_jwt_with_certs pemVerify (make_signed_jwt sign payload)
      [(kid, pem)] audience now = claimChecks audience now payload := by
  have h1 : make_signed_jwt sign payload =
      _urlsafe_b64encode (strBytes (JValue.dumps (JValue.obj (.cons "typ"
        (.str "JWT") (.cons "alg" (.str "RS256") .nil))))) ++ '.' ::
      (_urlsafe_b64encode (strBytes (JValue.dumps payload)) ++ '.' ::
        _urlsafe_b64encode (sign (strBytes
          (_urlsafe_b64encode (strBytes (JValue.dumps (JValue.obj (.cons "typ"
            (.str "JWT") (.cons "alg" (.str "RS256") .nil))))) ++ '.' ::
          _urlsafe_b64encode (strBytes (JValue.dumps payload)))))) := by
    rw [make_signed_jwt]
    simp only [List.append_assoc, List.cons_append, _json_encode]
  rw [h1]
  rw [verify_three_b64 pemVerify [(kid, pem)] audience now _ _ _
    (strBytes_lt _ (dumps_ascii payload)) (hBytes _) payload
    (loadsBytes_dumps payload)]
  rw [show checkSig pemVerify [(kid, pem)]
    (strBytes (_urlsafe_b64encode (strBytes (JValue.dumps (JValue.obj (.cons
      "typ" (.str "JWT") (.cons "alg" (.str "RS256") .nil))))) ++ '.' ::
      _urlsafe_b64encode (strBytes (JValue.dumps payload))))
    (sign (strBytes (_urlsafe_b64encode (strBytes (JValue.dumps (JValue.obj
      (.cons "typ" (.str "JWT") (.cons "alg" (.str "RS256") .nil))))) ++ '.' ::
      _urlsafe_b64encode (strBytes (JValue.dumps payload))))) = true from by
    simp [checkSig, hSign]]
  simp

/-- `pyDictGet` never returns a stored JSON `null`: Python's `dict.get`
yields `None` for it, which the `is None` test conflates with absence. -/
theorem pyDictGet_ne_null (kvs : JObj) (k : String) (v : JValue)
    (h : pyDictGet kvs k = some v) : v ≠ JValue.null := by
  intro hv
  subst hv
  unfold pyDictGet at h
  match hg : kvs.get k with
  | none => rw [hg] at h; exact Option.noConfusion h
  | some .null => rw [hg] at h; exact Option.noConfusion h
  | some (.bool b) => rw [hg] at h; simp at h
  | some (.int n) => rw [hg] at h; simp at h
  | some (.str s) => rw [hg] at h; simp at h
  | some (.arr a) => rw [hg] at h; simp at h
  | some (.obj o) => rw [hg] at h; simp at h

/-- Every non-null, non-numeric value compares `>=` against a `long` under
Python-2 cross-type comparison (numbers sort below all non-numeric types). -/
theorem pyGeInt_nonnum (v : JValue) (hnull : v ≠ JValue.null)
    (hnum : pyToInt v = none) (m : Int) : pyGeInt v m = true := by
  match v with
  | .null => exact absurd rfl hnull
  | .bool b => simp [pyToInt] at hnum
  | .int n => simp [pyToInt] at hnum
  | .str s => rfl
  | .arr a => rfl
  | .obj o => rfl

/-! ## The claims -/

/-- C1: round trip.  For every payload object with integer `iat` and `exp`
claims, `exp` no earlier than `iat` and within the allowed lifetime, and a
signer/verifier pair derived from the same key (`pemVerify pem` accepts
exactly what `sign` produces), verifying
`make_signed_jwt(sign, payload)` against `{kid: pem}` with no audience at
`now = iat` succeeds and returns the original payload object. -/
theorem C1_roundtrip (pemVerify : String → List Nat → List Nat → Bool)
    (sign : List Nat → List Nat) (kid pem : String) (kvs : JObj)
    (iat exp : Int)
    (hSign : ∀ m, pemVerify pem m (sign m) = true)
    (hBytes : ∀ m b, b ∈ sign m → b < 256)
    (hIat : pyDictGet kvs "iat" = some (.int iat))
    (hExp : pyDictGet kvs "exp" = some (.int exp))
    (hValid : iat ≤ exp) (hLife : exp < iat + 86400) :
    verify_signed_jwt_with_certs pemVerify (make_signed_jwt sign (.obj kvs))
      [(kid, pem)] none iat = .ok (.obj kvs) := by
  rw [verify_make_eq pemVerify sign kid pem (.obj kvs) none iat hSign hBytes,
    claimChecks_int kvs none iat iat exp hIat hExp,
    if_neg (show ¬(iat + 86400 ≤ exp) by omega),
    if_neg (show ¬(iat < iat - 300) by omega),
    if_neg (show ¬(exp + 300 < iat) by omega)]

theorem C1_roundtrip_witness :
    verify_signed_jwt_with_certs (fun _ _ _ => true)
      (make_signed_jwt (fun _ => [])
        (.obj (.cons "iat" (.int 0) (.cons "exp" (.int 10) .nil))))
      [("k", "p")] none 0 =
      .ok (.obj (.cons "iat" (.int 0) (.cons "exp" (.int 10) .nil))) :=
  C1_roundtrip (fun _ _ _ => true) (fun _ => []) "k" "p"
    (.cons "iat" (.int 0) (.cons "exp" (.int 10) .nil)) 0 10
    (fun _ => rfl) (fun _ b hb => absurd hb (List.not_mem_nil b))
    rfl rfl (by omega) (by omega)

/-- C2: the signature step.  For every well-formed three-segment token (split
and decodes succeed, payload parses), the verification outcome is
`claimChecks` exactly when some certificate in the set verifies the signature
over the signing input `segments[0] ++ "." ++ segments[1]`, and
`InvalidSignatureError` otherwise — in particular for the empty set — and
the outcome is invariant under permutation of the certificate set. -/
theorem C2_signature_check (pemVerify : String → List Nat → List Nat → Bool)
    (jwt : List Char) (certs certs2 : List (String × String))
    (audience : Option String) (now : Int) (s0 s1 s2 : List Char)
    (sig body : List Nat) (parsed : JValue)
    (hsplit : splitOnDot jwt = [s0, s1, s2])
    (hsig : _urlsafe_b64decode s2 = .ok sig)
    (hbody : _urlsafe_b64decode s1 = .ok body)
    (hparse : loadsBytes body = .ok parsed) :
    (verify_signed_jwt_with_certs pemVerify jwt certs audience now =
      if certs.any (fun kp => pemVerify kp.2 (strBytes (s0 ++ '.' :: s1)) sig)
      then claimChecks audience now parsed
      else .error .invalidSignature) ∧
    (certs.Perm certs2 →
      verify_signed_jwt_with_certs pemVerify jwt certs audience now =
      verify_signed_jwt_with_certs pemVerify jwt certs2 audience now) := by
  constructor
  · rw [verify_stages pemVerify jwt certs audience now s0 s1 s2 sig body parsed
      hsplit hsig hbody hparse, checkSig_eq_any]
  · intro hperm
    rw [verify_stages pemVerify jwt certs audience now s0 s1 s2 sig body parsed
      hsplit hsig hbody hparse,
      verify_stages pemVerify jwt certs2 audience now s0 s1 s2 sig body parsed
      hsplit hsig hbody hparse,
      checkSig_perm pemVerify certs certs2 _ _ hperm]

theorem C2_signature_check_witness :
    verify_signed_jwt_with_certs (fun _ _ _ => false) ("MA.MA.MA".data) []
      none 0 = .error .invalidSignature := by
  have h := C2_signature_check (fun _ _ _ => false) ("MA.MA.MA".data) [] []
    none 0 ("MA".data) ("MA".data) ("MA".data) [48] [48] (.int 0)
    rfl rfl rfl rfl
  rw [h.1]
  rfl

/-- C3: clock-skew window.  For a signed token with integer `iat`/`exp`
within the lifetime cap, the temporal check accepts exactly when
`iat - 300 ≤ now ≤ exp + 300`: it fails with the too-early error when
`now < iat - 300` (e.g. `iat = now + 301`), with the too-late error when
`now > exp + 300` (e.g. `exp = now - 301`), and succeeds at the boundaries
`iat = now + 300` and `exp = now - 300`. -/
theorem C3_skew_window (pemVerify : String → List Nat → List Nat → Bool)
    (sign : List Nat → List Nat) (kid pem : String) (kvs : JObj)
    (iat exp now : Int)
    (hSign : ∀ m, pemVerify pem m (sign m) = true)
    (hBytes : ∀ m b, b ∈ sign m → b < 256)
    (hIat : pyDictGet kvs "iat" = some (.int iat))
    (hExp : pyDictGet kvs "exp" = some (.int exp))
    (hLife : exp < now + 86400) :
    verify_signed_jwt_with_certs pemVerify (make_signed_jwt sign (.obj kvs))
      [(kid, pem)] none now =
      if now < iat - 300 then .error .tooEarly
      else if exp + 300 < now then .error .tooLate
      else .ok (.obj kvs) := by
  rw [verify_make_eq pemVerify sign kid pem (.obj kvs) none now hSign hBytes,
    claimChecks_int kvs none now iat exp hIat hExp,
    if_neg (show ¬(now + 86400 ≤ exp) by omega)]

theorem C3_skew_window_witness :
    verify_signed_jwt_with_certs (fun _ _ _ => true)
      (make_signed_jwt (fun _ => [])
        (.obj (.cons "iat" (.int 301) (.cons "exp" (.int 400) .nil))))
      [("k", "p")] none 0 =
      (if (0 : Int) < 301 - 300 then .error .tooEarly
      else if (400 : Int) + 300 < 0 then .error .tooLate
      else .ok (.obj (.cons "iat" (.int 301) (.cons "exp" (.int 400) .nil)))) :=
  C3_skew_window (fun _ _ _ => true) (fun _ => []) "k" "p"
    (.cons "iat" (.int 301) (.cons "exp" (.int 400) .nil)) 301 400 0
    (fun _ => rfl) (fun _ b hb => absurd hb (List.not_mem_nil b))
    rfl rfl (by omega)

/-- C4: lifetime cap.  For a signed token with integer `iat`/`exp` present,
`exp >= now + 86400` fails with the lifetime-exceeded error, regardless of
the other temporal checks — in particular `exp = now + 86401`, `iat = now`
fails this way. -/
theorem C4_lifetime_cap (pemVerify : String → List Nat → List Nat → Bool)
    (sign : List Nat → List Nat) (kid pem : String) (kvs : JObj)
    (audience : Option String) (iat exp now : Int)
    (hSign : ∀ m, pemVerify pem m (sign m) = true)
    (hBytes : ∀ m b, b ∈ sign m → b < 256)
    (hIat : pyDictGet kvs "iat" = some (.int iat))
    (hExp : pyDictGet kvs "exp" = some (.int exp))
    (hCap : now + 86400 ≤ exp) :
    verify_signed_jwt_with_certs pemVerify (make_signed_jwt sign (.obj kvs))
      [(kid, pem)] audience now = .error .expTooFar := by
  rw [verify_make_eq pemVerify sign kid pem (.obj kvs) audience now hSign
    hBytes, claimChecks_int kvs audience now iat exp hIat hExp, if_pos hCap]

theorem C4_lifetime_cap_witness :
    verify_signed_jwt_with_certs (fun _ _ _ => true)
      (make_signed_jwt (fun _ => [])
        (.obj (.cons "iat" (.int 0) (.cons "exp" (.int 86401) .nil))))
      [("k", "p")] none 0 = .error .expTooFar :=
  C4_lifetime_cap (fun _ _ _ => true) (fun _ => []) "k" "p"
    (.cons "iat" (.int 0) (.cons "exp" (.int 86401) .nil)) none 0 86401 0
    (fun _ => rfl) (fun _ b hb => absurd hb (List.not_mem_nil b))
    rfl rfl (by omega)

/-- C5 counterexample: on the token `"x.y.!"` the payload segment `"y"` makes
`base64.urlsafe_b64decode` raise `binascii.Error('Incorrect padding')`, which
no handler catches (the only `try/except` wraps `simplejson.loads`), so
`verify` fails with an uncategorized exception that is neither an
`AppIdentityError` nor the spec's `MalformedTokenError`. -/
theorem C5_counterexample :
    verify_signed_jwt_with_certs (fun _ _ _ => false) ("x.y.!".data) [] none
      0 = .error (.b64Error .badPadding) ∧
    isMalformedTokenError (.b64Error .badPadding) = false ∧
    isAppIdentityError (.b64Error .badPadding) = false :=
  ⟨rfl, rfl, rfl⟩

/-- C5 (amended): wrong segment count and an unparsable JSON payload fail
with `AppIdentityError` (the spec's `MalformedTokenError`), but base64url
decode failures of the signature or payload segment escape as uncaught
exceptions, outside every error category of the source. -/
theorem C5_malformed (pemVerify : String → List Nat → List Nat → Bool)
    (jwt : List Char) (certs : List (String × String))
    (audience : Option String) (now : Int) :
    ((splitOnDot jwt).length ≠ 3 →
      verify_signed_jwt_with_certs pemVerify jwt certs audience now =
        .error .wrongSegments ∧
      isMalformedTokenError .wrongSegments = true) ∧
    (∀ s0 s1 s2 e, splitOnDot jwt = [s0, s1, s2] →
      _urlsafe_b64decode s2 = .error e →
      verify_signed_jwt_with_certs pemVerify jwt certs audience now =
        .error (.b64Error e) ∧
      isMalformedTokenError (.b64Error e) = false ∧
      isAppIdentityError (.b64Error e) = false) ∧
    (∀ s0 s1 s2 sig e, splitOnDot jwt = [s0, s1, s2] →
      _urlsafe_b64decode s2 = .ok sig → _urlsafe_b64decode s1 = .error e →
      verify_signed_jwt_with_certs pemVerify jwt certs audience now =
        .error (.b64Error e) ∧
      isMalformedTokenError (.b64Error e) = false ∧
      isAppIdentityError (.b64Error e) = false) ∧
    (∀ s0 s1 s2 sig body e, splitOnDot jwt = [s0, s1, s2] →
      _urlsafe_b64decode s2 = .ok sig → _urlsafe_b64decode s1 = .ok body →
      loadsBytes body = .error e →
      verify_signed_jwt_with_certs pemVerify jwt certs audience now =
        .error .parseError ∧
      isMalformedTokenError .parseError = true) := by
  refine ⟨fun h => ⟨verify_wrongSegments pemVerify jwt certs audience now h,
      rfl⟩,
    fun s0 s1 s2 e h1 h2 =>
      ⟨verify_sigDecodeErr pemVerify jwt certs audience now s0 s1 s2 e h1 h2,
        ?_, rfl⟩,
    fun s0 s1 s2 sig e h1 h2 h3 =>
      ⟨verify_bodyDecodeErr pemVerify jwt certs audience now s0 s1 s2 sig e
        h1 h2 h3, ?_, rfl⟩,
    fun s0 s1 s2 sig body e h1 h2 h3 h4 =>
      ⟨verify_parseErr pemVerify jwt certs audience now s0 s1 s2 sig body e
        h1 h2 h3 h4, rfl⟩⟩ <;> rfl

theorem C5_malformed_witness :
    (verify_signed_jwt_with_certs (fun _ _ _ => false) ("a.b".data) [] none
      0 = .error .wrongSegments ∧
      isMalformedTokenError .wrongSegments = true) ∧
    (verify_signed_jwt_with_certs (fun _ _ _ => false) ("x.MA.y".data) []
      none 0 = .error (.b64Error .badPadding) ∧
      isMalformedTokenError (.b64Error .badPadding) = false ∧
      isAppIdentityError (.b64Error .badPadding) = false) ∧
    (verify_signed_jwt_with_certs (fun _ _ _ => false) ("x.y.MA".data) []
      none 0 = .error (.b64Error .badPadding) ∧
      isMalformedTokenError (.b64Error .badPadding) = false ∧
      isAppIdentityError (.b64Error .badPadding) = false) ∧
    (verify_signed_jwt_with_certs (fun _ _ _ => false) ("MA.eA.MA".data) []
      none 0 = .error .parseError ∧
      isMalformedTokenError .parseError = true) :=
  ⟨(C5_malformed (fun _ _ _ => false) ("a.b".data) [] none 0).1 (by decide),
    (C5_malformed (fun _ _ _ => false) ("x.MA.y".data) [] none 0).2.1
      ("x".data) ("MA".data) ("y".data) .badPadding rfl rfl,
    (C5_malformed (fun _ _ _ => false) ("x.y.MA".data) [] none 0).2.2.1
      ("x".data) ("y".data) ("MA".data) [48] .badPadding rfl rfl rfl,
    (C5_malformed (fun _ _ _ => false) ("MA.eA.MA".data) [] none 0).2.2.2
      ("MA".data) ("eA".data) ("MA".data) [48] [120] .bad rfl rfl rfl rfl⟩

/-- C6 counterexample: a token whose `iat` is present but a string passes the
`is None` presence test, and then `iat - CLOCK_SKEW_SECS` raises an uncaught
`TypeError` — not the `MissingClaimError` (`AppIdentityError`) the spec
promises for a non-integer `iat`. -/
theorem C6_counterexample :
    verify_signed_jwt_with_certs (fun _ _ _ => true)
      (make_signed_jwt (fun _ => [])
        (.obj (.cons "iat" (.str "x") (.cons "exp" (.int 5) .nil))))
      [("a", "p")] none 0 = .error .typeError ∧
    isMissingClaimError .typeError = false ∧
    isAppIdentityError .typeError = false := by
  refine ⟨?_, rfl, rfl⟩
  rw [verify_make_eq (fun _ _ _ => true) (fun _ => []) "a" "p"
    (.obj (.cons "iat" (.str "x") (.cons "exp" (.int 5) .nil))) none 0
    (fun _ => rfl) (fun _ b hb => absurd hb (List.not_mem_nil b))]
  rfl

/-- C6 (amended): for a signed token, an absent `iat` or `exp` fails with the
corresponding `AppIdentityError` (the spec's `MissingClaimError`), but an
`iat` that is present with a non-numeric value instead raises an uncaught
`TypeError` at `iat - CLOCK_SKEW_SECS`, outside every error category, and an
`exp` that is present with a non-numeric value (given an integer `iat`)
compares greater than the `long` `now + MAX_TOKEN_LIFETIME_SECS` under
Python-2 cross-type comparison and is reported as the lifetime-cap
`AppIdentityError` — in neither case the spec's `MissingClaimError`. -/
theorem C6_claim_presence (pemVerify : String → List Nat → List Nat → Bool)
    (sign : List Nat → List Nat) (kid pem : String) (kvs : JObj)
    (audience : Option String) (now : Int)
    (hSign : ∀ m, pemVerify pem m (sign m) = true)
    (hBytes : ∀ m b, b ∈ sign m → b < 256) :
    (pyDictGet kvs "iat" = none →
      verify_signed_jwt_with_certs pemVerify (make_signed_jwt sign (.obj kvs))
        [(kid, pem)] audience now = .error .missingIat ∧
      isMissingClaimError .missingIat = true) ∧
    (∀ iatV, pyDictGet kvs "iat" = some iatV → pyToInt iatV = none →
      verify_signed_jwt_with_certs pemVerify (make_signed_jwt sign (.obj kvs))
        [(kid, pem)] audience now = .error .typeError ∧
      isMissingClaimError .typeError = false ∧
      isAppIdentityError .typeError = false) ∧
    (∀ iat : Int, pyDictGet kvs "iat" = some (.int iat) →
      pyDictGet kvs "exp" = none →
      verify_signed_jwt_with_certs pemVerify (make_signed_jwt sign (.obj kvs))
        [(kid, pem)] audience now = .error .missingExp ∧
      isMissingClaimError .missingExp = true) ∧
    (∀ (iat : Int) (expV : JValue), pyDictGet kvs "iat" = some (.int iat) →
      pyDictGet kvs "exp" = some expV → pyToInt expV = none →
      verify_signed_jwt_with_certs pemVerify (make_signed_jwt sign (.obj kvs))
        [(kid, pem)] audience now = .error .expTooFar ∧
      isMissingClaimError .expTooFar = false) := by
  rw [verify_make_eq pemVerify sign kid pem (.obj kvs) audience now hSign
    hBytes]
  refine ⟨fun h1 => ⟨?_, rfl⟩, fun iatV h1 h2 => ⟨?_, rfl, rfl⟩,
    fun iat h1 h2 => ⟨?_, rfl⟩, fun iat expV h1 h2 h3 => ⟨?_, rfl⟩⟩
  · simp [claimChecks, h1]
  · simp [claimChecks, h1, h2]
  · simp [claimChecks, h1, h2, pyToInt]
  · have hge := pyGeInt_nonnum expV (pyDictGet_ne_null kvs "exp" expV h2) h3
      (now + 86400)
    simp [claimChecks, h1, h2, pyToInt, hge]

theorem C6_claim_presence_witness :
    (verify_signed_jwt_with_certs (fun _ _ _ => true)
      (make_signed_jwt (fun _ => []) (.obj (.cons "exp" (.int 5) .nil)))
      [("k", "p")] none 0 = .error .missingIat ∧
      isMissingClaimError .missingIat = true) ∧
    (verify_signed_jwt_with_certs (fun _ _ _ => true)
      (make_signed_jwt (fun _ => [])
        (.obj (.cons "iat" (.str "x") (.cons "exp" (.int 5) .nil))))
      [("k", "p")] none 0 = .error .typeError ∧
      isMissingClaimError .typeError = false ∧
      isAppIdentityError .typeError = false) ∧
    (verify_signed_jwt_with_certs (fun _ _ _ => true)
      (make_signed_jwt (fun _ => []) (.obj (.cons "iat" (.int 7) .nil)))
      [("k", "p")] none 0 = .error .missingExp ∧
      isMissingClaimError .missingExp = true) ∧
    (verify_signed_jwt_with_certs (fun _ _ _ => true)
      (make_signed_jwt (fun _ => [])
        (.obj (.cons "iat" (.int 0) (.cons "exp" (.str "x") .nil))))
      [("k", "p")] none 0 = .error .expTooFar ∧
      isMissingClaimError .expTooFar = false) ∧
    (verify_signed_jwt_with_certs (fun _ _ _ => true)
      (make_signed_jwt (fun _ => [])
        (.obj (.cons "iat" (.int 0) (.cons "exp" (.arr .nil) .nil))))
      [("k", "p")] none 0 = .error .expTooFar ∧
      isMissingClaimError .expTooFar = false) :=
  ⟨(C6_claim_presence (fun _ _ _ => true) (fun _ => []) "k" "p"
      (.cons "exp" (.int 5) .nil) none 0 (fun _ => rfl)
      (fun _ b hb => absurd hb (List.not_mem_nil b))).1 rfl,
    (C6_claim_presence (fun _ _ _ => true) (fun _ => []) "k" "p"
      (.cons "iat" (.str "x") (.cons "exp" (.int 5) .nil)) none 0
      (fun _ => rfl) (fun _ b hb => absurd hb (List.not_mem_nil b))).2.1
      (.str "x") rfl rfl,
    (C6_claim_presence (fun _ _ _ => true) (fun _ => []) "k" "p"
      (.cons "iat" (.int 7) .nil) none 0 (fun _ => rfl)
      (fun _ b hb => absurd hb (List.not_mem_nil b))).2.2.1 7 rfl rfl,
    (C6_claim_presence (fun _ _ _ => true) (fun _ => []) "k" "p"
      (.cons "iat" (.int 0) (.cons "exp" (.str "x") .nil)) none 0
      (fun _ => rfl) (fun _ b hb => absurd hb (List.not_mem_nil b))).2.2.2
      0 (.str "x") rfl rfl rfl,
    (C6_claim_presence (fun _ _ _ => true) (fun _ => []) "k" "p"
      (.cons "iat" (.int 0) (.cons "exp" (.arr .nil) .nil)) none 0
      (fun _ => rfl) (fun _ b hb => absurd hb (List.not_mem_nil b))).2.2.2
      0 (.arr .nil) rfl rfl rfl⟩

/-- C7: audience enforcement.  For a signed token with integer `iat`/`exp`
passing the temporal checks: with no expected audience, verification succeeds
and the `aud` claim is ignored; with an expected audience, an absent `aud`
fails with the missing-claim error, a present `aud` different from the
expected value fails with the wrong-recipient error, and an equal `aud`
succeeds. -/
theorem C7_audience (pemVerify : String → List Nat → List Nat → Bool)
    (sign : List Nat → List Nat) (kid pem : String) (kvs : JObj)
    (iat exp now : Int)
    (hSign : ∀ m, pemVerify pem m (sign m) = true)
    (hBytes : ∀ m b, b ∈ sign m → b < 256)
    (hIat : pyDictGet kvs "iat" = some (.int iat))
    (hExp : pyDictGet kvs "exp" = some (.int exp))
    (hLife : exp < now + 86400) (hEarly : iat - 300 ≤ now)
    (hLate : now ≤ exp + 300) :
    (verify_signed_jwt_with_certs pemVerify (make_signed_jwt sign (.obj kvs))
      [(kid, pem)] none now = .ok (.obj kvs)) ∧
    (∀ aud : String, pyDictGet kvs "aud" = none →
      verify_signed_jwt_with_certs pemVerify (make_signed_jwt sign (.obj kvs))
        [(kid, pem)] (some aud) now = .error .missingAud ∧
      isMissingClaimError .missingAud = true) ∧
    (∀ (aud : String) (audV : JValue), pyDictGet kvs "aud" = some audV →
      jEqStr audV aud = false →
      verify_signed_jwt_with_certs pemVerify (make_signed_jwt sign (.obj kvs))
        [(kid, pem)] (some aud) now = .error .wrongRecipient) ∧
    (∀ (aud : String) (audV : JValue), pyDictGet kvs "aud" = some audV →
      jEqStr audV aud = true →
      verify_signed_jwt_with_certs pemVerify (make_signed_jwt sign (.obj kvs))
        [(kid, pem)] (some aud) now = .ok (.obj kvs)) := by
  refine ⟨?_, fun aud h => ⟨?_, rfl⟩, fun aud audV h1 h2 => ?_,
    fun aud audV h1 h2 => ?_⟩
  · rw [verify_make_eq pemVerify sign kid pem (.obj kvs) none now hSign
      hBytes, claimChecks_int kvs none now iat exp hIat hExp,
      if_neg (show ¬(now + 86400 ≤ exp) by omega),
      if_neg (show ¬(now < iat - 300) by omega),
      if_neg (show ¬(exp + 300 < now) by omega)]
  · rw [verify_make_eq pemVerify sign kid pem (.obj kvs) (some aud) now hSign
      hBytes, claimChecks_int kvs (some aud) now iat exp hIat hExp,
      if_neg (show ¬(now + 86400 ≤ exp) by omega),
      if_neg (show ¬(now < iat - 300) by omega),
      if_neg (show ¬(exp + 300 < now) by omega)]
    simp [h]
  · rw [verify_make_eq pemVerify sign kid pem (.obj kvs) (some aud) now hSign
      hBytes, claimChecks_int kvs (some aud) now iat exp hIat hExp,
      if_neg (show ¬(now + 86400 ≤ exp) by omega),
      if_neg (show ¬(now < iat - 300) by omega),
      if_neg (show ¬(exp + 300 < now) by omega)]
    simp [h1, h2]
  · rw [verify_make_eq pemVerify sign kid pem (.obj kvs) (some aud) now hSign
      hBytes, claimChecks_int kvs (some aud) now iat exp hIat hExp,
      if_neg (show ¬(now + 86400 ≤ exp) by omega),
      if_neg (show ¬(now < iat - 300) by omega),
      if_neg (show ¬(exp + 300 < now) by omega)]
    simp [h1, h2]

theorem C7_audience_witness :
    (verify_signed_jwt_with_certs (fun _ _ _ => true)
      (make_signed_jwt (fun _ => []) (.obj (.cons "iat" (.int 0)
        (.cons "exp" (.int 10) (.cons "aud" (.str "svc-x") .nil)))))
      [("k", "p")] none 0 =
      .ok (.obj (.cons "iat" (.int 0) (.cons "exp" (.int 10)
        (.cons "aud" (.str "svc-x") .nil))))) ∧
    (verify_signed_jwt_with_certs (fun _ _ _ => true)
      (make_signed_jwt (fun _ => [])
        (.obj (.cons "iat" (.int 0) (.cons "exp" (.int 10) .nil))))
      [("k", "p")] (some "svc-y") 0 = .error .missingAud ∧
      isMissingClaimError .missingAud = true) ∧
    (verify_signed_jwt_with_certs (fun _ _ _ => true)
      (make_signed_jwt (fun _ => []) (.obj (.cons "iat" (.int 0)
        (.cons "exp" (.int 10) (.cons "aud" (.str "svc-x") .nil)))))
      [("k", "p")] (some "svc-y") 0 = .error .wrongRecipient) ∧
    (verify_signed_jwt_with_certs (fun _ _ _ => true)
      (make_signed_jwt (fun _ => []) (.obj (.cons "iat" (.int 0)
        (.cons "exp" (.int 10) (.cons "aud" (.str "svc-x") .nil)))))
      [("k", "p")] (some "svc-x") 0 =
      .ok (.obj (.cons "iat" (.int 0) (.cons "exp" (.int 10)
        (.cons "aud" (.str "svc-x") .nil))))) :=
  ⟨(C7_audience (fun _ _ _ => true) (fun _ => []) "k" "p"
      (.cons "iat" (.int 0) (.cons "exp" (.int 10)
        (.cons "aud" (.str "svc-x") .nil))) 0 10 0 (fun _ => rfl)
      (fun _ b hb => absurd hb (List.not_mem_nil b)) rfl rfl (by omega)
      (by omega) (by omega)).1,
    (C7_audience (fun _ _ _ => true) (fun _ => []) "k" "p"
      (.cons "iat" (.int 0) (.cons "exp" (.int 10) .nil)) 0 10 0
      (fun _ => rfl) (fun _ b hb => absurd hb (List.not_mem_nil b)) rfl rfl
      (by omega) (by omega) (by omega)).2.1 "svc-y" rfl,
    (C7_audience (fun _ _ _ => true) (fun _ => []) "k" "p"
      (.cons "iat" (.int 0) (.cons "exp" (.int 10)
        (.cons "aud" (.str "svc-x") .nil))) 0 10 0 (fun _ => rfl)
      (fun _ b hb => absurd hb (List.not_mem_nil b)) rfl rfl (by omega)
      (by omega) (by omega)).2.2.1 "svc-y" (.str "svc-x") rfl (by decide),
    (C7_audience (fun _ _ _ => true) (fun _ => []) "k" "p"
      (.cons "iat" (.int 0) (.cons "exp" (.int 10)
        (.cons "aud" (.str "svc-x") .nil))) 0 10 0 (fun _ => rfl)
      (fun _ b hb => absurd hb (List.not_mem_nil b)) rfl rfl (by omega)
      (by omega) (by omega)).2.2.2 "svc-x" (.str "svc-x") rfl (by decide)⟩

/-- C8: the Verifier contract (both backends).  `OpenSSLVerifier.verify` and
`PyCryptoVerifier.verify` wrap the primitive call in a bare `try/except`
returning `False`, so they are total: any raised exception — bad signature or
internal parsing/format error alike — folds into the boolean `False`, and a
successful primitive call yields `True` (resp. the primitive's boolean). -/
theorem C8_verifier_total :
    opensslVerify .exn = false ∧ (∀ u, opensslVerify (.ok u) = true) ∧
    pyCryptoVerify .exn = false ∧ (∀ b, pyCryptoVerify (.ok b) = b) :=
  ⟨rfl, fun _ => rfl, rfl, fun _ => rfl⟩

/-- C9: `exp` is never compared against `iat`.  For every clock reading a
correctly signed token with `iat = now + 300` and `exp = now - 300` — an
expiry strictly before issuance — is accepted, because the lifetime cap, the
not-yet-valid check and the expiry check each pass individually. -/
theorem C9_exp_before_iat (pemVerify : String → List Nat → List Nat → Bool)
    (sign : List Nat → List Nat) (kid pem : String) (now : Int)
    (hSign : ∀ m, pemVerify pem m (sign m) = true)
    (hBytes : ∀ m b, b ∈ sign m → b < 256) :
    (now - 300 : Int) < now + 300 ∧
    verify_signed_jwt_with_certs pemVerify
      (make_signed_jwt sign (.obj (.cons "iat" (.int (now + 300))
        (.cons "exp" (.int (now - 300)) .nil)))) [(kid, pem)] none now =
      .ok (.obj (.cons "iat" (.int (now + 300))
        (.cons "exp" (.int (now - 300)) .nil))) := by
  constructor
  · omega
  · rw [verify_make_eq pemVerify sign kid pem
      (.obj (.cons "iat" (.int (now + 300))
        (.cons "exp" (.int (now - 300)) .nil))) none now hSign hBytes,
      claimChecks_int (.cons "iat" (.int (now + 300))
        (.cons "exp" (.int (now - 300)) .nil)) none now (now + 300)
        (now - 300) rfl rfl,
      if_neg (show ¬(now + 86400 ≤ now - 300) by omega),
      if_neg (show ¬(now < now + 300 - 300) by omega),
      if_neg (show ¬(now - 300 + 300 < now) by omega)]

theorem C9_exp_before_iat_witness :
    (0 - 300 : Int) < 0 + 300 ∧
    verify_signed_jwt_with_certs (fun _ _ _ => true)
      (make_signed_jwt (fun _ => []) (.obj (.cons "iat" (.int (0 + 300))
        (.cons "exp" (.int (0 - 300)) .nil)))) [("k", "p")] none 0 =
      .ok (.obj (.cons "iat" (.int (0 + 300))
        (.cons "exp" (.int (0 - 300)) .nil))) :=
  C9_exp_before_iat (fun _ _ _ => true) (fun _ => []) "k" "p" 0
    (fun _ => rfl) (fun _ b hb => absurd hb (List.not_mem_nil b))

/-- C10: the base64url helpers round-trip on every byte string, and when the
stripped encoding's length is a multiple of 4 the decoder's
`'=' * (4 - len % 4)` appends four padding characters (not zero) — which the
decoder's padding loop nevertheless accepts. -/
theorem C10_b64_roundtrip (b : List Nat) (h : ∀ x ∈ b, x < 256) :
    _urlsafe_b64decode (_urlsafe_b64encode b) = .ok b ∧
    ((_urlsafe_b64encode b).length % 4 = 0 →
      padCount (_urlsafe_b64encode b) = 4) := by
  refine ⟨urlsafe_b64_roundtrip b h, fun h0 => ?_⟩
  simp [padCount, h0]

theorem C10_b64_roundtrip_witness :
    (_urlsafe_b64decode (_urlsafe_b64encode [48, 49, 50]) =
      .ok [48, 49, 50] ∧
    ((_urlsafe_b64encode [48, 49, 50]).length % 4 = 0 →
      padCount (_urlsafe_b64encode [48, 49, 50]) = 4)) ∧
    padCount (_urlsafe_b64encode [48, 49, 50]) = 4 :=
  ⟨C10_b64_roundtrip [48, 49, 50] (by decide),
    (C10_b64_roundtrip [48, 49, 50] (by decide)).2 (by decide)⟩

end Crypt
